import Mathlib

/-!
Verification of the attestation handshake core (`oak_session/src/attestation.rs`)
and the Intel TDX quote chain verifier (`oak_attestation_verification/src/intel.rs`).

The Rust code is shallowly embedded: `BTreeMap<String, V>` becomes a
key-sorted association list `List (String × V)`, `anyhow::Result<T>` becomes
`Except String T`, and stateful handler methods become explicit state-passing
functions returning the updated handler together with the Rust return value.
External crates (p256, x509-cert, sha2, prost parsing, oak_tdx_quote parsing)
are abstracted as parameters or as already-parsed data carried by the inputs.
-/

/-! ## Ordered association lists (model of `BTreeMap<String, _>`) -/

/-- Byte strings are modelled as lists of naturals (each < 256 in practice). -/
abbrev Bytes := List Nat

/-- `String` order coincides with lexicographic order on the character data
(this form reduces in the kernel, unlike the derived order instance). -/
theorem string_lt_data {a b : String} : a < b ↔ a.data < b.data :=
  String.lt_iff_toList_lt

/-- The total order used by Rust's `Ord::cmp` on `String` (lexicographic). -/
def string_cmp (a b : String) : Ordering :=
  if a.data < b.data then .lt else if a = b then .eq else .gt

theorem string_cmp_eq_lt {a b : String} (h : a < b) : string_cmp a b = .lt := by
  simp [string_cmp, string_lt_data.mp h]

theorem string_cmp_eq_eq {a : String} : string_cmp a a = .eq := by
  have h : ¬ a.data < a.data := fun hc => lt_irrefl a (string_lt_data.mpr hc)
  simp [string_cmp, h]

theorem string_cmp_eq_gt {a b : String} (h : b < a) : string_cmp a b = .gt := by
  have hab : ¬ a < b := not_lt_of_gt h
  have h1 : ¬ a.data < b.data := fun hc => hab (string_lt_data.mpr hc)
  have h2 : a ≠ b := (ne_of_gt h)
  simp [string_cmp, h1, h2]

theorem eq_of_string_cmp_eq {a b : String} (h : string_cmp a b = .eq) : a = b := by
  by_cases h1 : a.data < b.data
  · simp [string_cmp, h1] at h
  · by_cases h2 : a = b
    · exact h2
    · simp [string_cmp, h1, h2] at h

theorem lt_of_string_cmp_lt {a b : String} (h : string_cmp a b = .lt) : a < b := by
  by_cases h1 : a.data < b.data
  · exact string_lt_data.mpr h1
  · by_cases h2 : a = b <;> simp [string_cmp, h1, h2] at h

theorem gt_of_string_cmp_gt {a b : String} (h : string_cmp a b = .gt) : b < a := by
  by_cases h1 : a.data < b.data
  · simp [string_cmp, h1] at h
  · by_cases h2 : a = b
    · simp [string_cmp, h1, h2] at h
    · have hnlt : ¬ a < b := fun hc => h1 (string_lt_data.mp hc)
      exact lt_of_le_of_ne (not_lt.mp hnlt) (Ne.symm h2)

/-- The keys of an association list. -/
def keysOf (l : List (String × α)) : List String := l.map Prod.fst

/-- The `BTreeMap` representation invariant: keys strictly ascending. -/
def SortedKeys (l : List (String × α)) : Prop :=
  l.Pairwise (fun p q => p.1 < q.1)

instance {l : List (String × α)} : Decidable (SortedKeys l) :=
  decidable_of_iff (l.Pairwise (fun p q => p.1.data < q.1.data))
    (by
      unfold SortedKeys
      constructor
      · intro h; exact h.imp (fun hab => string_lt_data.mpr hab)
      · intro h; exact h.imp (fun hab => string_lt_data.mp hab))

/-- `BTreeMap::insert`: insert or replace, keeping keys ordered. -/
def insertKey : List (String × α) → String × α → List (String × α)
  | [], e => [e]
  | (k, v) :: rest, e =>
    match string_cmp e.1 k with
    | .lt => e :: (k, v) :: rest
    | .eq => e :: rest
    | .gt => (k, v) :: insertKey rest e

/-- `collect::<BTreeMap<_, _>>()`: fold the entries through `insert`. -/
def collectToMap (l : List (String × α)) : List (String × α) :=
  l.foldl insertKey []

theorem mem_of_mem_insertKey {l : List (String × α)} {e p : String × α}
    (h : p ∈ insertKey l e) : p ∈ l ∨ p = e := by
  induction l with
  | nil => simp [insertKey] at h; simp [h]
  | cons hd tl ih =>
    obtain ⟨k, v⟩ := hd
    unfold insertKey at h
    rcases hcmp : string_cmp e.1 k with _ | _ | _ <;> simp [hcmp] at h
    · rcases h with h | h | h <;> simp [h]
    · rcases h with h | h <;> simp [h]
    · rcases h with h | h
      · simp [h]
      · rcases ih h with h1 | h1 <;> simp [h1]

theorem mem_of_mem_foldl_insertKey {l acc : List (String × α)} {p : String × α}
    (h : p ∈ l.foldl insertKey acc) : p ∈ acc ∨ p ∈ l := by
  induction l generalizing acc with
  | nil => simp at h; simp [h]
  | cons hd tl ih =>
    simp only [List.foldl_cons] at h
    rcases ih h with h1 | h1
    · rcases mem_of_mem_insertKey h1 with h2 | h2 <;> simp [h2]
    · simp [h1]

theorem mem_of_mem_collectToMap {l : List (String × α)} {p : String × α}
    (h : p ∈ collectToMap l) : p ∈ l := by
  rcases mem_of_mem_foldl_insertKey h with h1 | h1
  · simp at h1
  · exact h1

theorem insertKey_append_of_lt {l : List (String × α)} {e : String × α}
    (h : ∀ q ∈ l, q.1 < e.1) : insertKey l e = l ++ [e] := by
  induction l with
  | nil => simp [insertKey]
  | cons hd tl ih =>
    obtain ⟨k, v⟩ := hd
    have hk : k < e.1 := h (k, v) (by simp)
    unfold insertKey
    rw [string_cmp_eq_gt hk]
    simp only [List.cons_append, List.cons.injEq, true_and]
    exact ih (fun q hq => h q (by simp [hq]))

theorem foldl_insertKey_of_sorted {l acc : List (String × α)}
    (h : SortedKeys (acc ++ l)) : l.foldl insertKey acc = acc ++ l := by
  induction l generalizing acc with
  | nil => simp
  | cons hd tl ih =>
    simp only [List.foldl_cons]
    have hlt : ∀ q ∈ acc, q.1 < hd.1 := by
      intro q hq
      have := (List.pairwise_append.mp h).2.2 q hq hd (by simp)
      exact this
    rw [insertKey_append_of_lt hlt]
    have : SortedKeys ((acc ++ [hd]) ++ tl) := by
      simpa using h
    simpa using ih this

/-- On an already key-sorted list (as all `BTreeMap` iterations are),
re-collecting into a map is the identity. -/
theorem collectToMap_of_sorted {l : List (String × α)} (h : SortedKeys l) :
    collectToMap l = l := by
  unfold collectToMap
  have h0 : SortedKeys (([] : List (String × α)) ++ l) := by simpa using h
  simpa using foldl_insertKey_of_sorted h0

theorem mem_of_lookup_eq_some {l : List (String × α)} {a : String} {b : α}
    (h : l.lookup a = some b) : (a, b) ∈ l := by
  induction l with
  | nil => simp [List.lookup] at h
  | cons hd tl ih =>
    obtain ⟨k, v⟩ := hd
    unfold List.lookup at h
    by_cases hk : a = k
    · subst hk
      simp at h
      simp [h]
    · have : (a == k) = false := by simp [hk]
      rw [this] at h
      simp [ih h]

theorem lookup_eq_some_of_mem {l : List (String × α)} {a : String} {b : α}
    (h : (a, b) ∈ l) : ∃ c, l.lookup a = some c := by
  induction l with
  | nil => simp at h
  | cons hd tl ih =>
    obtain ⟨k, v⟩ := hd
    rcases List.mem_cons.mp h with h1 | h1
    · have h2 : a = k := congrArg Prod.fst h1
      exact ⟨v, by simp [List.lookup, h2]⟩
    · by_cases hk : a = k
      · exact ⟨v, by simp [List.lookup, hk]⟩
      · obtain ⟨c, hc⟩ := ih h1
        refine ⟨c, ?_⟩
        have : (a == k) = false := by simp [hk]
        simp [List.lookup, this, hc]

theorem lookup_cons_self {l : List (String × α)} {k : String} {v : α} :
    ((k, v) :: l).lookup k = some v := by
  simp [List.lookup]

theorem lookup_cons_ne {l : List (String × α)} {k a : String} {v : α} (h : a ≠ k) :
    ((k, v) :: l).lookup a = l.lookup a := by
  have : (a == k) = false := by simp [h]
  simp [List.lookup, this]

theorem sorted_head_lt {l : List (String × α)} {k : String} {v : α} {p : String × α}
    (hs : SortedKeys ((k, v) :: l)) (h : p ∈ l) : k < p.1 := by
  exact (List.pairwise_cons.mp hs).1 p h

theorem lookup_eq_none_of_sorted_lt {l : List (String × α)} {k a : String} {v : α}
    (hs : SortedKeys ((k, v) :: l)) (h : a < k) : ((k, v) :: l).lookup a = none := by
  rw [lookup_cons_ne (ne_of_lt h)]
  cases hl : l.lookup a with
  | none => rfl
  | some c =>
    have hm := mem_of_lookup_eq_some hl
    have := sorted_head_lt hs hm
    exact absurd (lt_trans h this) (lt_irrefl a)

/-! ## Wire data model (oak_proto_rust session/attestation protos)

Modelled from the spec: the proto crate is not part of the extracted sources;
the message shapes follow the wire messages listed in the spec (§6). -/

/-- An opaque assertion payload with byte content. -/
structure Assertion where
  content : Bytes
deriving DecidableEq, Repr

/-- Hardware attestation evidence; contents opaque to the handshake core. -/
structure Evidence where
  data : Bytes
deriving DecidableEq, Repr

/-- Endorsements vouching for evidence; contents opaque to the core. -/
structure Endorsements where
  data : Bytes
deriving DecidableEq, Repr

/-- `EndorsedEvidence { evidence: Option<Evidence>, endorsements: Option<Endorsements> }`. -/
structure EndorsedEvidence where
  evidence : Option Evidence
  endorsements : Option Endorsements
deriving DecidableEq, Repr

/-- `attestation_results::Status`. -/
inductive Status where
  | unspecified
  | success
  | genericFailure
deriving DecidableEq, Repr

/-- `AttestationResults { status, reason, .. }` (remaining fields unused by this core). -/
structure AttestationResults where
  status : Status
  reason : String
deriving DecidableEq, Repr

/-- `AttestRequest { endorsed_evidence, assertions }` (maps keyed by attestation ID). -/
structure AttestRequest where
  endorsed_evidence : List (String × EndorsedEvidence)
  assertions : List (String × Assertion)
deriving DecidableEq, Repr

/-- `AttestResponse { endorsed_evidence, assertions }`. -/
structure AttestResponse where
  endorsed_evidence : List (String × EndorsedEvidence)
  assertions : List (String × Assertion)
deriving DecidableEq, Repr

/-! ## Binding-token serialization (`serialize_assertions`) -/

/-- Protobuf base-128 varint encoding, with structural recursion on a fuel
bound (`n` itself bounds the number of output bytes, so the fuel never runs
out; the fuel-exhausted branch is unreachable). -/
def protoVarintGo : Nat → Nat → Bytes
  | 0, n => [n]
  | fuel + 1, n =>
    if n < 128 then [n] else (n % 128 + 128) :: protoVarintGo fuel (n / 128)

/-- Protobuf base-128 varint encoding of a natural number. -/
def protoVarint (n : Nat) : Bytes := protoVarintGo n n

/-- UTF-8 encoding of one character (by code point), as byte values. -/
def utf8Bytes (c : Char) : Bytes :=
  let n := c.toNat
  if n < 0x80 then [n]
  else if n < 0x800 then [0xC0 + n / 64, 0x80 + n % 64]
  else if n < 0x10000 then [0xE0 + n / 4096, 0x80 + n / 64 % 64, 0x80 + n % 64]
  else [0xF0 + n / 262144, 0x80 + n / 4096 % 64, 0x80 + n / 64 % 64, 0x80 + n % 64]

/-- The UTF-8 bytes of a string. -/
def strBytes (s : String) : Bytes := (s.data.map utf8Bytes).flatten

/-- `prost::Message::encode_to_vec` for a bare `String`: prost treats a `String`
as a `google.protobuf.StringValue` wrapper message (field 1, wire type 2) and
omits the field when the string is empty. -/
def encode_string_to_vec (s : String) : Bytes :=
  if s.data.isEmpty then []
  else (10 :: protoVarint (strBytes s).length) ++ strBytes s

/-- `serialize_assertions` (attestation.rs:582-593): for each entry of the map,
the length-delimited encoding of the ID, a `b':'` (58), the assertion content
and a `b'|'` (124), all concatenated in map (i.e. ascending-ID) order. -/
def serialize_assertions (assertions : List (String × Assertion)) : Bytes :=
  (assertions.map (fun p => (encode_string_to_vec p.1 ++ [58]) ++ p.2.content ++ [124])).flatten

/-! ## Attestation handshake data model (attestation.rs) -/

/-- `VerifierResult` (attestation.rs:192-202). -/
inductive VerifierResult where
  | success (evidence : EndorsedEvidence) (result : AttestationResults)
  | failure (evidence : EndorsedEvidence) (result : AttestationResults)
  | missing
  | unverified (evidence : EndorsedEvidence)
deriving DecidableEq, Repr

/-- `PeerAttestationVerdict` (attestation.rs:117-131). -/
inductive PeerAttestationVerdict where
  | attestationPassed (attestation_results : List (String × VerifierResult))
  | attestationFailed (reason : String) (attestation_results : List (String × VerifierResult))
deriving DecidableEq, Repr

/-- `PeerAttestationVerdict::get_attestation_results` (attestation.rs:137-146). -/
def PeerAttestationVerdict.get_attestation_results :
    PeerAttestationVerdict → List (String × VerifierResult)
  | .attestationPassed attestation_results => attestation_results
  | .attestationFailed _ attestation_results => attestation_results

/-- Modelled from the spec: a `BindableAssertion` owns an `Assertion` plus a
capability to later sign the session transcript; the capability is abstracted
as opaque data (the generator module is not among the extracted sources). -/
structure BindableAssertion where
  assertion : Assertion
  binding_capability : Bytes
deriving DecidableEq, Repr

/-- Modelled from the spec: a `SessionBindingVerifier` is an opaque capability
derived from successfully verified evidence. -/
structure SessionBindingVerifier where
  tag : Nat
deriving DecidableEq, Repr

/-- Modelled from the spec: `Attester::quote() → Evidence | Error`. -/
structure Attester where
  quote : Except String Evidence

/-- Modelled from the spec: `Endorser::endorse(evidence?) → Endorsements | Error`. -/
structure Endorser where
  endorse : Option Evidence → Except String Endorsements

/-- Modelled from the spec: `AssertionGenerator::generate() → BindableAssertion | Error`. -/
structure AssertionGenerator where
  generate : Except String BindableAssertion

/-- Modelled from the spec: a configured peer verifier pairs
`Verifier::verify(evidence, endorsements) → AttestationResults` with a
`SessionBindingVerifierProvider::create(results) → SessionBindingVerifier`
(the config module is not among the extracted sources). -/
structure PeerAttestationVerifier where
  verifier : Evidence → Endorsements → Except String AttestationResults
  binding_verifier_provider : AttestationResults → Except String SessionBindingVerifier

/-- Modelled from the spec: `AttestationHandlerConfig` as consumed by the
handlers; the aggregator is an injected policy over the per-ID result map. -/
structure AttestationHandlerConfig where
  self_attesters : List (String × Attester)
  self_endorsers : List (String × Endorser)
  self_assertion_generators : List (String × AssertionGenerator)
  peer_verifiers : List (String × PeerAttestationVerifier)
  attestation_results_aggregator : List (String × VerifierResult) → PeerAttestationVerdict

/-- `AttestationState` (attestation.rs:155-170). -/
structure AttestationState where
  peer_attestation_verdict : PeerAttestationVerdict
  self_assertions : List (String × BindableAssertion)
  peer_session_binding_verifiers : List (String × SessionBindingVerifier)
  attestation_binding_token : Bytes

/-! ## The merge-join (`combine_attestation_results`, attestation.rs:538-580) -/

/-- The `EitherOrBoth::Both` arm of `combine_attestation_results`
(attestation.rs:546-572): with evidence and endorsements both present the
verifier runs and its status picks `Success` or `Failure`; otherwise a
synthetic `Failure` records that both are required. -/
def handleBoth (peer_verifier : PeerAttestationVerifier) (id : String)
    (ee : EndorsedEvidence) : Except String (String × VerifierResult) :=
  match ee.evidence, ee.endorsements with
  | some evidence, some endorsements =>
    match peer_verifier.verifier evidence endorsements with
    | .error e => .error e
    | .ok result =>
      .ok (id, if result.status = Status.success then
                 VerifierResult.success ee result
               else VerifierResult.failure ee result)
  | _, _ =>
    .ok (id, VerifierResult.failure ee
      { status := Status.genericFailure,
        reason := "Both evidence and endorsements need to be provided" })

/-- `itertools::merge_join_by` over the two ID-keyed maps, fused with the
per-element `match` of attestation.rs:545-578. Errors short-circuit in
iteration order, as `collect::<Result<_, _>>` does. Structural recursion on a
fuel bound: each step consumes at least one element of one list, so seeding
the fuel with the combined length makes the fuel-exhausted branch
unreachable. -/
def mapMergeGo : Nat → List (String × PeerAttestationVerifier) →
    List (String × EndorsedEvidence) →
    Except String (List (String × VerifierResult))
  | _, [], es => .ok (es.map (fun p => (p.1, VerifierResult.unverified p.2)))
  | _, vs, [] => .ok (vs.map (fun p => (p.1, VerifierResult.missing)))
  | 0, _ :: _, _ :: _ => .error "unreachable: fuel exhausted"
  | fuel + 1, (id1, peer_verifier) :: vs, (id2, ee) :: es =>
    match string_cmp id1 id2 with
    | .lt =>
      match mapMergeGo fuel vs ((id2, ee) :: es) with
      | .error e => .error e
      | .ok rest => .ok ((id1, VerifierResult.missing) :: rest)
    | .gt =>
      match mapMergeGo fuel ((id1, peer_verifier) :: vs) es with
      | .error e => .error e
      | .ok rest => .ok ((id2, VerifierResult.unverified ee) :: rest)
    | .eq =>
      match handleBoth peer_verifier id2 ee with
      | .error e => .error e
      | .ok entry =>
        match mapMergeGo fuel vs es with
        | .error e => .error e
        | .ok rest => .ok (entry :: rest)

/-- The merge-join entry list of `combine_attestation_results`. -/
def mapMergeEntries (verifiers : List (String × PeerAttestationVerifier))
    (attested_evidence : List (String × EndorsedEvidence)) :
    Except String (List (String × VerifierResult)) :=
  mapMergeGo (verifiers.length + attested_evidence.length) verifiers attested_evidence

/-- `combine_attestation_results` (attestation.rs:538-580): the merge-join
entries, collected into a `BTreeMap`. -/
def combine_attestation_results (verifiers : List (String × PeerAttestationVerifier))
    (attested_evidence : List (String × EndorsedEvidence)) :
    Except String (List (String × VerifierResult)) :=
  match mapMergeEntries verifiers attested_evidence with
  | .error e => .error e
  | .ok entries => .ok (collectToMap entries)

/-! ## Handler state machines (attestation.rs:229-522)

Stateful `&mut self` methods become state-passing functions returning the
updated handler together with the Rust return value. -/

/-- The assertion map sent on the wire and serialized into the binding token:
`bindable_assertions.iter().map(|(id, ba)| (id.clone(), ba.assertion().clone())).collect()`. -/
def assertions_of (bindable_assertions : List (String × BindableAssertion)) :
    List (String × Assertion) :=
  collectToMap (bindable_assertions.map (fun p => (p.1, p.2.assertion)))

/-- The endorsed-evidence map built in `create` (attestation.rs:256-273 and
409-426): each attester's `quote`, endorsed by the ID-matched endorser when one
exists (`endorsements = None` otherwise). -/
def endorsed_evidence_of (config : AttestationHandlerConfig) :
    Except String (List (String × EndorsedEvidence)) :=
  match config.self_attesters.mapM (fun p =>
    (match p.2.quote with
    | .error e => .error e
    | .ok evidence =>
      match config.self_endorsers.lookup p.1 with
      | none => .ok (p.1, EndorsedEvidence.mk (some evidence) none)
      | some endorser =>
        match endorser.endorse (some evidence) with
        | .error e => .error e
        | .ok endorsements =>
          .ok (p.1, EndorsedEvidence.mk (some evidence) (some endorsements)) :
      Except String (String × EndorsedEvidence))) with
  | .error e => .error e
  | .ok entries => .ok (collectToMap entries)

/-- The bindable-assertion map built in `create` (attestation.rs:249-253 and
402-406): each configured generator's `generate`, keyed by its ID. -/
def bindable_assertions_of (config : AttestationHandlerConfig) :
    Except String (List (String × BindableAssertion)) :=
  match config.self_assertion_generators.mapM (fun p =>
    (match p.2.generate with
    | .error e => .error e
    | .ok bindable_assertion => .ok (p.1, bindable_assertion) :
      Except String (String × BindableAssertion))) with
  | .error e => .error e
  | .ok entries => .ok (collectToMap entries)

/-- `ClientAttestationHandler` (attestation.rs:229-235). -/
structure ClientAttestationHandler where
  config : AttestationHandlerConfig
  attest_request : Option AttestRequest
  attestation_result : Option PeerAttestationVerdict
  bindable_assertions : List (String × BindableAssertion)
  attestation_binding_token : Bytes

/-- `ClientAttestationHandler::create` (attestation.rs:248-286). -/
def ClientAttestationHandler.create (config : AttestationHandlerConfig) :
    Except String ClientAttestationHandler :=
  match bindable_assertions_of config with
  | .error e => .error e
  | .ok bindable_assertions =>
    match endorsed_evidence_of config with
    | .error e => .error e
    | .ok endorsed_evidence =>
      .ok { attest_request := some
              { endorsed_evidence := endorsed_evidence,
                assertions := assertions_of bindable_assertions },
            bindable_assertions := bindable_assertions,
            config := config,
            attestation_result := none,
            attestation_binding_token := [] }

/-- `ClientAttestationHandler::get_outgoing_message` (attestation.rs:326-336).
The source always returns `Ok(..)`, so the `anyhow::Result` wrapper is dropped. -/
def ClientAttestationHandler.get_outgoing_message (self : ClientAttestationHandler) :
    ClientAttestationHandler × Option AttestRequest :=
  ({ self with
      attestation_binding_token := self.attestation_binding_token ++
        serialize_assertions (assertions_of self.bindable_assertions),
      attest_request := none },
   self.attest_request)

/-- `ClientAttestationHandler::put_incoming_message` (attestation.rs:350-369).
The binding-token extension happens before the early return and before the
fallible merge-join, so it survives every outcome. -/
def ClientAttestationHandler.put_incoming_message (self : ClientAttestationHandler)
    (incoming_message : AttestResponse) :
    ClientAttestationHandler × Except String (Option Unit) :=
  let self := { self with
    attestation_binding_token := self.attestation_binding_token ++
      serialize_assertions incoming_message.assertions }
  if self.attestation_result.isSome then (self, .ok none)
  else
    match combine_attestation_results self.config.peer_verifiers
        incoming_message.endorsed_evidence with
    | .error e => (self, .error e)
    | .ok results =>
      ({ self with
          attestation_result := some (self.config.attestation_results_aggregator results) },
       .ok (some ()))

/-- A failure of `take_attestation_state`: an `anyhow!` error or the
`.expect(..)` panic of attestation.rs:301/454, kept distinct. -/
inductive HandlerError where
  | msg (s : String)
  | panic (s : String)
deriving DecidableEq, Repr

/-- The `filter_map`-and-collect of `take_attestation_state`
(attestation.rs:296-309 and 449-462): each `Success` entry yields a session
binding verifier from the ID-matched configured provider; a missing verifier
for a `Success` entry is the `expect` panic; a provider failure propagates. -/
def build_binding_verifiers (peer_verifiers : List (String × PeerAttestationVerifier)) :
    List (String × VerifierResult) →
    Except HandlerError (List (String × SessionBindingVerifier))
  | [] => .ok []
  | (id, VerifierResult.success _ result) :: rest =>
    match peer_verifiers.lookup id with
    | none => .error (.panic
        "no peer verifier for already succesfully verified evidence: it cannot happen")
    | some peer_verifier =>
      match peer_verifier.binding_verifier_provider result with
      | .error e => .error (.msg e)
      | .ok binding_verifier =>
        match build_binding_verifiers peer_verifiers rest with
        | .error e => .error e
        | .ok r => .ok ((id, binding_verifier) :: r)
  | _ :: rest => build_binding_verifiers peer_verifiers rest

/-- `ClientAttestationHandler::take_attestation_state` (attestation.rs:292-316). -/
def ClientAttestationHandler.take_attestation_state (self : ClientAttestationHandler) :
    Except HandlerError AttestationState :=
  match self.attestation_result with
  | none => .error (.msg "attestation is not complete")
  | some verdict =>
    match build_binding_verifiers self.config.peer_verifiers
        verdict.get_attestation_results with
    | .error e => .error e
    | .ok entries =>
      .ok { peer_session_binding_verifiers := collectToMap entries,
            peer_attestation_verdict := verdict,
            self_assertions := self.bindable_assertions,
            attestation_binding_token := self.attestation_binding_token }

/-- `ServerAttestationHandler` (attestation.rs:382-388). -/
structure ServerAttestationHandler where
  config : AttestationHandlerConfig
  attest_response : Option AttestResponse
  attestation_result : Option PeerAttestationVerdict
  bindable_assertions : List (String × BindableAssertion)
  attestation_binding_token : Bytes

/-- `ServerAttestationHandler::create` (attestation.rs:401-439). -/
def ServerAttestationHandler.create (config : AttestationHandlerConfig) :
    Except String ServerAttestationHandler :=
  match bindable_assertions_of config with
  | .error e => .error e
  | .ok bindable_assertions =>
    match endorsed_evidence_of config with
    | .error e => .error e
    | .ok endorsed_evidence =>
      .ok { attest_response := some
              { endorsed_evidence := endorsed_evidence,
                assertions := assertions_of bindable_assertions },
            bindable_assertions := bindable_assertions,
            config := config,
            attestation_result := none,
            attestation_binding_token := [] }

/-- `ServerAttestationHandler::get_outgoing_message` (attestation.rs:480-490). -/
def ServerAttestationHandler.get_outgoing_message (self : ServerAttestationHandler) :
    ServerAttestationHandler × Option AttestResponse :=
  ({ self with
      attestation_binding_token := self.attestation_binding_token ++
        serialize_assertions (assertions_of self.bindable_assertions),
      attest_response := none },
   self.attest_response)

/-- `ServerAttestationHandler::put_incoming_message` (attestation.rs:503-521). -/
def ServerAttestationHandler.put_incoming_message (self : ServerAttestationHandler)
    (incoming_message : AttestRequest) :
    ServerAttestationHandler × Except String (Option Unit) :=
  let self := { self with
    attestation_binding_token := self.attestation_binding_token ++
      serialize_assertions incoming_message.assertions }
  if self.attestation_result.isSome then (self, .ok none)
  else
    match combine_attestation_results self.config.peer_verifiers
        incoming_message.endorsed_evidence with
    | .error e => (self, .error e)
    | .ok results =>
      ({ self with
          attestation_result := some (self.config.attestation_results_aggregator results) },
       .ok (some ()))

/-- `ServerAttestationHandler::take_attestation_state` (attestation.rs:445-470). -/
def ServerAttestationHandler.take_attestation_state (self : ServerAttestationHandler) :
    Except HandlerError AttestationState :=
  match self.attestation_result with
  | none => .error (.msg "attestation is not complete")
  | some verdict =>
    match build_binding_verifiers self.config.peer_verifiers
        verdict.get_attestation_results with
    | .error e => .error e
    | .ok entries =>
      .ok { peer_session_binding_verifiers := collectToMap entries,
            peer_attestation_verdict := verdict,
            self_assertions := self.bindable_assertions,
            attestation_binding_token := self.attestation_binding_token }

/-! ## Intel TDX quote chain verification (intel.rs)

External crates (x509-cert, p256, sha2, oak_tdx_quote) are abstracted: a
`Certificate` carries its already-parsed fields, parsing results travel with
the inputs, and the cryptographic primitives are parameters bundled in
`CryptoOps`. -/

/-- The DER value of OID 1.2.840.10045.4.3.2 (`ECDSA_WITH_SHA_256`),
as a numeric code. -/
def ECDSA_WITH_SHA_256 : Nat := 0x2A8648CE3D040302

/-- An X.509 certificate, reduced to the fields intel.rs reads: the signature
algorithm OID, the DER bytes of `tbs_certificate`, the raw signature bytes and
the `subject_public_key` bytes. -/
structure Certificate where
  signature_algorithm : Nat
  tbs_certificate_der : Bytes
  signature : Bytes
  subject_public_key : Bytes
deriving DecidableEq, Repr

/-- The cryptographic primitives used by intel.rs, abstracted: ECDSA-P256 key
and signature parsing, signature verification, and SHA-256
(`crate::util::hash_sha2_256` is not among the extracted sources). -/
structure CryptoOps where
  parse_sec1_key : Bytes → Option Bytes
  parse_signature_der : Bytes → Option Bytes
  parse_signature_bytes : Bytes → Option Bytes
  from_untagged_bytes : Bytes → Option Bytes
  p256_verify : Bytes → Bytes → Bytes → Bool
  hash_sha2_256 : Bytes → Bytes

/-- Modelled from the spec: the hard-coded Intel SGX Provisioning Certification
Root CA (the `PCK_ROOT` PEM constant compiled into intel.rs, parsed). Its field
values are opaque to every property proved here. -/
def PCK_ROOT_CERT : Certificate :=
  { signature_algorithm := ECDSA_WITH_SHA_256,
    tbs_certificate_der := [0],
    signature := [0],
    subject_public_key := [0] }

/-- `anyhow::Context::context`: wraps an error with an outer description. -/
def context_err (ctx : String) : Except String α → Except String α
  | .error e => .error (ctx ++ ": " ++ e)
  | .ok a => .ok a

/-- `extract_ecdsa_verifying_key` (intel.rs:142-146). -/
def extract_ecdsa_verifying_key (C : CryptoOps) (certificate : Certificate) :
    Except String Bytes :=
  match C.parse_sec1_key certificate.subject_public_key with
  | some verifying_key => .ok verifying_key
  | none => .error "could not parse ECDSA P256 public key"

/-- `verify_ecdsa_cert_signature` (intel.rs:121-140): reject any signature
algorithm other than ECDSA-with-SHA-256, then check the signer's key verifies
the signee's signature over its `tbs_certificate` DER. -/
def verify_ecdsa_cert_signature (C : CryptoOps) (signer signee : Certificate) :
    Except String Unit :=
  if signee.signature_algorithm = ECDSA_WITH_SHA_256 then
    match extract_ecdsa_verifying_key C signer with
    | .error e => .error e
    | .ok verifying_key =>
      match C.parse_signature_der signee.signature with
      | none => .error "could not extract signature"
      | some signature =>
        if C.p256_verify verifying_key signee.tbs_certificate_der signature then .ok ()
        else .error "signature verification failed"
  else .error ("unsupported signature algorithm: " ++ toString signee.signature_algorithm)

/-- The parsed body of a Quoting Enclave report; only `report_data` (64 bytes)
is read by intel.rs. -/
structure EnclaveReportBody where
  report_data : Bytes
deriving DecidableEq, Repr

/-- `oak_tdx_quote::QeCertificationData`, with the nested
`QeReportCertificationData` struct flattened into its variant. PEM parsing by
`Certificate::load_pem_chain` is abstracted: the `pckCertChain` variant carries
the parsed certificate list, and `parse_enclave_report_body` travels as an
already-computed parse result. -/
inductive QeCertificationData where
  | pckCertChain (chain : List Certificate)
  | qeReportCertificationData
      (certification_data : QeCertificationData)
      (signature : Bytes)
      (report_body : Bytes)
      (authentication_data : Bytes)
      (parse_enclave_report_body : Except String EnclaveReportBody)
  | other

/-- `oak_tdx_quote` signature data, reduced to the fields intel.rs reads. -/
structure SignatureData where
  certification_data : QeCertificationData
  ecdsa_attestation_key : Bytes
  quote_signature : Bytes

/-- `oak_tdx_quote::TdxQuoteWrapper`, with its parsing methods abstracted as
already-computed results. -/
structure TdxQuoteWrapper where
  parse_signature_data : Except String SignatureData
  get_quote_data_bytes : Except String Bytes

/-- The pairwise loop of intel.rs:113-117: each certificate must be signed by
the next one in the chain. -/
def verify_chain_pairs (C : CryptoOps) : Certificate → List Certificate →
    Except String Unit
  | _, [] => .ok ()
  | signee, signer :: rest =>
    match context_err "verifying cert signature" (verify_ecdsa_cert_signature C signer signee) with
    | .error e => .error e
    | .ok _ => verify_chain_pairs C signer rest

/-- `verify_quote_cert_chain_and_extract_leaf` (intel.rs:92-119): require a PCK
certificate chain, drop the wire-provided root and push the hard-coded
published root in its place, then check each certificate is signed by its
successor and return the leaf. -/
def verify_quote_cert_chain_and_extract_leaf (C : CryptoOps)
    (certification_data : QeCertificationData) : Except String Certificate :=
  match certification_data with
  | QeCertificationData.pckCertChain certificates =>
    if certificates.isEmpty then .error "certificate chain is empty"
    else
      match certificates.dropLast ++ [PCK_ROOT_CERT] with
      | [] => .error "certificate chain is empty"
      | leaf :: rest =>
        match verify_chain_pairs C leaf rest with
        | .error e => .error e
        | .ok _ => .ok leaf
  | _ => .error "certification data is not a PCK certificate chain"

/-- `verify_intel_tdx_quote_validity` (intel.rs:40-90). -/
def verify_intel_tdx_quote_validity (C : CryptoOps) (quote : TdxQuoteWrapper) :
    Except String Unit :=
  match context_err "parsing signature data" quote.parse_signature_data with
  | .error e => .error e
  | .ok signature_data =>
    match signature_data.certification_data with
    | QeCertificationData.qeReportCertificationData certification_data qe_sig
        report_body authentication_data parse_enclave_report_body =>
      match context_err "verifying quote cert chain"
          (verify_quote_cert_chain_and_extract_leaf C certification_data) with
      | .error e => .error e
      | .ok pck_leaf =>
        match extract_ecdsa_verifying_key C pck_leaf with
        | .error e => .error e
        | .ok pck_verifying_key =>
          match C.parse_signature_bytes qe_sig with
          | none => .error "couldn't parse QE Report signature"
          | some qe_signature =>
            if C.p256_verify pck_verifying_key report_body qe_signature then
              match context_err "parsing enclave report body" parse_enclave_report_body with
              | .error e => .error e
              | .ok qe_report =>
                if C.hash_sha2_256 (signature_data.ecdsa_attestation_key ++
                    authentication_data) = qe_report.report_data.take 32 then
                  if List.replicate 32 0 = qe_report.report_data.drop 32 then
                    match C.from_untagged_bytes signature_data.ecdsa_attestation_key with
                    | none => .error "couldn't parse attestation public key"
                    | some attestation_key =>
                      match C.parse_signature_bytes signature_data.quote_signature with
                      | none => .error "couldn't parse quote signature"
                      | some quote_signature =>
                        match quote.get_quote_data_bytes with
                        | .error e => .error e
                        | .ok quote_data =>
                          if C.p256_verify attestation_key quote_data quote_signature then
                            .ok ()
                          else .error "quote signature verification failed"
                  else .error "unexpected data in quoting enclave report data"
                else .error "attestation key is not bound to quoting enclave report"
            else .error "QE Report signature verification failed"
    | _ => .error "signature data contains the wrong type of certification data"


/-! ## Lemmas about the merge-join -/

theorem handleBoth_fst {peer_verifier : PeerAttestationVerifier} {id : String}
    {ee : EndorsedEvidence} {p : String × VerifierResult}
    (h : handleBoth peer_verifier id ee = .ok p) : p.1 = id := by
  unfold handleBoth at h
  rcases ee with ⟨ev, en⟩
  rcases ev with _ | ev <;> rcases en with _ | en <;> simp at h
  · rw [← h]
  · rw [← h]
  · rw [← h]
  · rcases hv : peer_verifier.verifier ev en with e | r <;> rw [hv] at h <;> simp at h
    rw [← h]

theorem lookup_map_value {l : List (String × α)} (g : α → β) (a : String) :
    (l.map (fun p => (p.1, g p.2))).lookup a = (l.lookup a).map g := by
  induction l with
  | nil => simp [List.lookup]
  | cons hd tl ih =>
    obtain ⟨k, v⟩ := hd
    by_cases hk : a = k
    · subst hk; simp [List.lookup]
    · have hf : (a == k) = false := by simp [hk]
      simp [List.lookup, hf, ih]

theorem keysOf_map_value {l : List (String × α)} (g : α → β) :
    keysOf (l.map (fun p => (p.1, g p.2))) = keysOf l := by
  simp [keysOf, List.map_map]

theorem sortedKeys_map_value {l : List (String × α)} (g : α → β)
    (h : SortedKeys l) : SortedKeys (l.map (fun p => (p.1, g p.2))) := by
  unfold SortedKeys at *
  rw [List.pairwise_map]
  exact h

theorem sortedKeys_tail {l : List (String × α)} {p : String × α}
    (h : SortedKeys (p :: l)) : SortedKeys l :=
  (List.pairwise_cons.mp h).2

theorem mem_keysOf {l : List (String × α)} {a : String} :
    a ∈ keysOf l ↔ ∃ b, (a, b) ∈ l := by
  simp only [keysOf, List.mem_map]
  constructor
  · rintro ⟨⟨x, y⟩, hx, rfl⟩; exact ⟨y, hx⟩
  · rintro ⟨b, hb⟩; exact ⟨(a, b), hb, rfl⟩


theorem keysOf_cons {l : List (String × α)} {k : String} {v : α} :
    keysOf ((k, v) :: l) = k :: keysOf l := rfl

set_option maxHeartbeats 1000000 in
theorem mapMergeGo_spec_aux :
    ∀ (fuel : Nat) (vs : List (String × PeerAttestationVerifier))
      (es : List (String × EndorsedEvidence))
      (entries : List (String × VerifierResult)),
      vs.length + es.length ≤ fuel →
      SortedKeys vs → SortedKeys es →
      mapMergeGo fuel vs es = .ok entries →
      ((∀ id, id ∈ keysOf entries ↔ id ∈ keysOf vs ∨ id ∈ keysOf es)
        ∧ SortedKeys entries
        ∧ (∀ id pv, vs.lookup id = some pv → es.lookup id = none →
            entries.lookup id = some VerifierResult.missing)
        ∧ (∀ id ee, vs.lookup id = none → es.lookup id = some ee →
            entries.lookup id = some (VerifierResult.unverified ee))
        ∧ (∀ id pv ee, vs.lookup id = some pv → es.lookup id = some ee →
            ∃ vr, handleBoth pv id ee = .ok (id, vr) ∧ entries.lookup id = some vr)) := by
  intro fuel
  induction fuel with
  | zero =>
    intro vs es entries hle hvs hes h
    rcases vs with _ | ⟨⟨id1, pv1⟩, vs'⟩
    · unfold mapMergeGo at h
      simp only [Except.ok.injEq] at h
      subst h
      refine ⟨?_, ?_, ?_, ?_, ?_⟩
      · intro id
        rw [keysOf_map_value VerifierResult.unverified]
        simp [keysOf]
      · exact sortedKeys_map_value _ hes
      · intro id pv hv _
        simp [List.lookup] at hv
      · intro id ee _ he
        rw [lookup_map_value VerifierResult.unverified]
        simp [he]
      · intro id pv ee hv _
        simp [List.lookup] at hv
    · rcases es with _ | ⟨⟨id2, ee2⟩, es'⟩
      · unfold mapMergeGo at h
        simp only [Except.ok.injEq] at h
        subst h
        refine ⟨?_, ?_, ?_, ?_, ?_⟩
        · intro id
          rw [keysOf_map_value (fun _ => VerifierResult.missing)]
          simp [keysOf]
        · exact sortedKeys_map_value (fun _ => VerifierResult.missing) hvs
        · intro id pv hv _
          rw [lookup_map_value (fun _ => VerifierResult.missing)]
          simp [hv]
        · intro id ee _ he
          simp [List.lookup] at he
        · intro id pv ee _ he
          simp [List.lookup] at he
      · simp only [List.length_cons] at hle
        omega
  | succ fuel ih =>
    intro vs es entries hle hvs hes h
    rcases vs with _ | ⟨⟨id1, pv1⟩, vs'⟩
    · unfold mapMergeGo at h
      simp only [Except.ok.injEq] at h
      subst h
      refine ⟨?_, ?_, ?_, ?_, ?_⟩
      · intro id
        rw [keysOf_map_value VerifierResult.unverified]
        simp [keysOf]
      · exact sortedKeys_map_value _ hes
      · intro id pv hv _
        simp [List.lookup] at hv
      · intro id ee _ he
        rw [lookup_map_value VerifierResult.unverified]
        simp [he]
      · intro id pv ee hv _
        simp [List.lookup] at hv
    · rcases es with _ | ⟨⟨id2, ee2⟩, es'⟩
      · unfold mapMergeGo at h
        simp only [Except.ok.injEq] at h
        subst h
        refine ⟨?_, ?_, ?_, ?_, ?_⟩
        · intro id
          rw [keysOf_map_value (fun _ => VerifierResult.missing)]
          simp [keysOf]
        · exact sortedKeys_map_value (fun _ => VerifierResult.missing) hvs
        · intro id pv hv _
          rw [lookup_map_value (fun _ => VerifierResult.missing)]
          simp [hv]
        · intro id ee _ he
          simp [List.lookup] at he
        · intro id pv ee _ he
          simp [List.lookup] at he
      · unfold mapMergeGo at h
        rcases hcmp : string_cmp id1 id2 with _ | _ | _
        · -- id1 < id2: the verifier head is emitted as `Missing`
          rw [hcmp] at h
          rcases hrec : mapMergeGo fuel vs' ((id2, ee2) :: es') with e | rest <;>
            rw [hrec] at h <;> simp only [Except.ok.injEq, reduceCtorEq] at h
          subst h
          have hlt12 : id1 < id2 := lt_of_string_cmp_lt hcmp
          have hlen : vs'.length + ((id2, ee2) :: es').length ≤ fuel := by
            simp only [List.length_cons] at hle ⊢; omega
          obtain ⟨K, S, M, U, B⟩ :=
            ih vs' ((id2, ee2) :: es') rest hlen (sortedKeys_tail hvs) hes hrec
          refine ⟨?_, ?_, ?_, ?_, ?_⟩
          · intro id
            have hK := K id
            simp only [keysOf_cons, List.mem_cons] at hK ⊢
            tauto
          · refine List.pairwise_cons.mpr ⟨?_, S⟩
            intro p hp
            have hpk : p.1 ∈ keysOf rest := mem_keysOf.mpr ⟨p.2, hp⟩
            rcases (K p.1).mp hpk with hk | hk
            · obtain ⟨b, hb⟩ := mem_keysOf.mp hk
              exact (List.pairwise_cons.mp hvs).1 _ hb
            · rw [keysOf_cons, List.mem_cons] at hk
              rcases hk with hk | hk
              · rw [hk]; exact hlt12
              · obtain ⟨b, hb⟩ := mem_keysOf.mp hk
                exact lt_trans hlt12 ((List.pairwise_cons.mp hes).1 _ hb)
          · intro id pv hv he
            by_cases hid : id = id1
            · subst hid
              exact lookup_cons_self
            · rw [lookup_cons_ne hid] at hv ⊢
              exact M id pv hv he
          · intro id ee hv he
            by_cases hid : id = id1
            · subst hid
              rw [lookup_cons_self] at hv
              cases hv
            · rw [lookup_cons_ne hid] at hv ⊢
              exact U id ee hv he
          · intro id pv ee hv he
            by_cases hid : id = id1
            · subst hid
              rw [lookup_eq_none_of_sorted_lt hes hlt12] at he
              cases he
            · rw [lookup_cons_ne hid] at hv ⊢
              exact B id pv ee hv he
        · -- id1 = id2: the verifier runs on the paired evidence
          have heq : id1 = id2 := eq_of_string_cmp_eq hcmp
          subst heq
          rw [hcmp] at h
          rcases hb : handleBoth pv1 id1 ee2 with e | ⟨e1, evr⟩ <;> rw [hb] at h <;>
            simp only [Except.ok.injEq, reduceCtorEq] at h
          have hfst : id1 = e1 := (handleBoth_fst hb).symm
          subst hfst
          rcases hrec : mapMergeGo fuel vs' es' with e | rest <;> rw [hrec] at h <;>
            simp only [Except.ok.injEq, reduceCtorEq] at h
          subst h
          have hlen : vs'.length + es'.length ≤ fuel := by
            simp only [List.length_cons] at hle; omega
          obtain ⟨K, S, M, U, B⟩ :=
            ih vs' es' rest hlen (sortedKeys_tail hvs) (sortedKeys_tail hes) hrec
          refine ⟨?_, ?_, ?_, ?_, ?_⟩
          · intro id
            have hK := K id
            simp only [keysOf_cons, List.mem_cons] at hK ⊢
            tauto
          · refine List.pairwise_cons.mpr ⟨?_, S⟩
            intro p hp
            have hpk : p.1 ∈ keysOf rest := mem_keysOf.mpr ⟨p.2, hp⟩
            rcases (K p.1).mp hpk with hk | hk
            · obtain ⟨b, hb⟩ := mem_keysOf.mp hk
              exact (List.pairwise_cons.mp hvs).1 _ hb
            · obtain ⟨b, hb⟩ := mem_keysOf.mp hk
              exact (List.pairwise_cons.mp hes).1 _ hb
          · intro id pv hv he
            by_cases hid : id = id1
            · subst hid
              rw [lookup_cons_self] at he
              cases he
            · rw [lookup_cons_ne hid] at hv he ⊢
              exact M id pv hv he
          · intro id ee hv he
            by_cases hid : id = id1
            · subst hid
              rw [lookup_cons_self] at hv
              cases hv
            · rw [lookup_cons_ne hid] at hv he ⊢
              exact U id ee hv he
          · intro id pv ee hv he
            by_cases hid : id = id1
            · subst hid
              rw [lookup_cons_self] at hv he
              have hpv : pv1 = pv := by injection hv
              have hee : ee2 = ee := by injection he
              subst hpv
              subst hee
              exact ⟨evr, hb, lookup_cons_self⟩
            · rw [lookup_cons_ne hid] at hv he ⊢
              exact B id pv ee hv he
        · -- id2 < id1: the evidence head is emitted as `Unverified`
          rw [hcmp] at h
          rcases hrec : mapMergeGo fuel ((id1, pv1) :: vs') es' with e | rest <;>
            rw [hrec] at h <;> simp only [Except.ok.injEq, reduceCtorEq] at h
          subst h
          have hlt21 : id2 < id1 := gt_of_string_cmp_gt hcmp
          have hlen : ((id1, pv1) :: vs').length + es'.length ≤ fuel := by
            simp only [List.length_cons] at hle ⊢; omega
          obtain ⟨K, S, M, U, B⟩ :=
            ih ((id1, pv1) :: vs') es' rest hlen hvs (sortedKeys_tail hes) hrec
          refine ⟨?_, ?_, ?_, ?_, ?_⟩
          · intro id
            have hK := K id
            simp only [keysOf_cons, List.mem_cons] at hK ⊢
            tauto
          · refine List.pairwise_cons.mpr ⟨?_, S⟩
            intro p hp
            have hpk : p.1 ∈ keysOf rest := mem_keysOf.mpr ⟨p.2, hp⟩
            rcases (K p.1).mp hpk with hk | hk
            · rw [keysOf_cons, List.mem_cons] at hk
              rcases hk with hk | hk
              · rw [hk]; exact hlt21
              · obtain ⟨b, hb⟩ := mem_keysOf.mp hk
                exact lt_trans hlt21 ((List.pairwise_cons.mp hvs).1 _ hb)
            · obtain ⟨b, hb⟩ := mem_keysOf.mp hk
              exact (List.pairwise_cons.mp hes).1 _ hb
          · intro id pv hv he
            by_cases hid : id = id2
            · subst hid
              rw [lookup_cons_self] at he
              cases he
            · rw [lookup_cons_ne hid] at he ⊢
              exact M id pv hv he
          · intro id ee hv he
            by_cases hid : id = id2
            · subst hid
              rw [lookup_cons_self] at he
              have hee : ee2 = ee := by injection he
              subst hee
              exact lookup_cons_self
            · rw [lookup_cons_ne hid] at he ⊢
              exact U id ee hv he
          · intro id pv ee hv he
            by_cases hid : id = id2
            · subst hid
              rw [lookup_eq_none_of_sorted_lt hvs hlt21] at hv
              cases hv
            · rw [lookup_cons_ne hid] at he ⊢
              exact B id pv ee hv he

theorem combine_attestation_results_spec
    {vs : List (String × PeerAttestationVerifier)}
    {es : List (String × EndorsedEvidence)} {m : List (String × VerifierResult)}
    (hvs : SortedKeys vs) (hes : SortedKeys es)
    (h : combine_attestation_results vs es = .ok m) :
    ((∀ id, id ∈ keysOf m ↔ id ∈ keysOf vs ∨ id ∈ keysOf es)
      ∧ SortedKeys m
      ∧ (∀ id pv, vs.lookup id = some pv → es.lookup id = none →
          m.lookup id = some VerifierResult.missing)
      ∧ (∀ id ee, vs.lookup id = none → es.lookup id = some ee →
          m.lookup id = some (VerifierResult.unverified ee))
      ∧ (∀ id pv ee, vs.lookup id = some pv → es.lookup id = some ee →
          ∃ vr, handleBoth pv id ee = .ok (id, vr) ∧ m.lookup id = some vr)) := by
  unfold combine_attestation_results mapMergeEntries at h
  rcases hrec : mapMergeGo (vs.length + es.length) vs es with e | entries <;>
    rw [hrec] at h <;> simp only [Except.ok.injEq, reduceCtorEq] at h
  obtain ⟨K, S, M, U, B⟩ :=
    mapMergeGo_spec_aux (vs.length + es.length) vs es entries (le_refl _) hvs hes hrec
  rw [collectToMap_of_sorted S] at h
  subst h
  exact ⟨K, S, M, U, B⟩

theorem handleBoth_success_mem {peer_verifier : PeerAttestationVerifier}
    {id id0 : String} {ee ee0 : EndorsedEvidence} {res : AttestationResults}
    {p : String × VerifierResult}
    (h : handleBoth peer_verifier id ee = .ok p)
    (hs : p = (id0, VerifierResult.success ee0 res)) : id0 = id := by
  subst hs
  exact handleBoth_fst h

theorem mapMergeGo_success_mem_aux :
    ∀ (fuel : Nat) (vs : List (String × PeerAttestationVerifier))
      (es : List (String × EndorsedEvidence))
      (entries : List (String × VerifierResult)),
      mapMergeGo fuel vs es = .ok entries →
      ∀ id ee res, (id, VerifierResult.success ee res) ∈ entries →
        ∃ pv, (id, pv) ∈ vs := by
  intro fuel
  induction fuel with
  | zero =>
    intro vs es entries h id ee res hmem
    rcases vs with _ | ⟨⟨id1, pv1⟩, vs'⟩
    · unfold mapMergeGo at h
      simp only [Except.ok.injEq] at h
      subst h
      obtain ⟨⟨a, b⟩, _, hab⟩ := List.mem_map.mp hmem
      simp at hab
    · rcases es with _ | ⟨⟨id2, ee2⟩, es'⟩
      · unfold mapMergeGo at h
        simp only [Except.ok.injEq] at h
        subst h
        obtain ⟨⟨a, b⟩, _, hab⟩ := List.mem_map.mp hmem
        simp at hab
      · unfold mapMergeGo at h
        simp at h
  | succ fuel ih =>
    intro vs es entries h id ee res hmem
    rcases vs with _ | ⟨⟨id1, pv1⟩, vs'⟩
    · unfold mapMergeGo at h
      simp only [Except.ok.injEq] at h
      subst h
      obtain ⟨⟨a, b⟩, _, hab⟩ := List.mem_map.mp hmem
      simp at hab
    · rcases es with _ | ⟨⟨id2, ee2⟩, es'⟩
      · unfold mapMergeGo at h
        simp only [Except.ok.injEq] at h
        subst h
        obtain ⟨⟨a, b⟩, _, hab⟩ := List.mem_map.mp hmem
        simp at hab
      · unfold mapMergeGo at h
        rcases hcmp : string_cmp id1 id2 with _ | _ | _
        · rw [hcmp] at h
          rcases hrec : mapMergeGo fuel vs' ((id2, ee2) :: es') with e | rest <;>
            rw [hrec] at h <;> simp only [Except.ok.injEq, reduceCtorEq] at h
          subst h
          rcases List.mem_cons.mp hmem with hm | hm
          · simp at hm
          · obtain ⟨pv, hpv⟩ := ih vs' _ rest hrec id ee res hm
            exact ⟨pv, by simp [hpv]⟩
        · rw [hcmp] at h
          rcases hb : handleBoth pv1 id2 ee2 with e | entry <;> rw [hb] at h <;>
            simp only [Except.ok.injEq, reduceCtorEq] at h
          rcases hrec : mapMergeGo fuel vs' es' with e | rest <;> rw [hrec] at h <;>
            simp only [Except.ok.injEq, reduceCtorEq] at h
          subst h
          have heq : id1 = id2 := eq_of_string_cmp_eq hcmp
          rcases List.mem_cons.mp hmem with hm | hm
          · have : id = id2 := (handleBoth_success_mem hb hm.symm).trans rfl
            exact ⟨pv1, by simp [this, heq]⟩
          · obtain ⟨pv, hpv⟩ := ih vs' es' rest hrec id ee res hm
            exact ⟨pv, by simp [hpv]⟩
        · rw [hcmp] at h
          rcases hrec : mapMergeGo fuel ((id1, pv1) :: vs') es' with e | rest <;>
            rw [hrec] at h <;> simp only [Except.ok.injEq, reduceCtorEq] at h
          subst h
          rcases List.mem_cons.mp hmem with hm | hm
          · simp at hm
          · exact ih ((id1, pv1) :: vs') es' rest hrec id ee res hm

/-- Any `Success` entry of a combined result map names an ID that carries a
configured verifier: the `Both` arm is the only source of `Success`. -/
theorem combine_success_lookup
    {vs : List (String × PeerAttestationVerifier)}
    {es : List (String × EndorsedEvidence)} {m : List (String × VerifierResult)}
    {id : String} {ee : EndorsedEvidence} {res : AttestationResults}
    (h : combine_attestation_results vs es = .ok m)
    (hm : (id, VerifierResult.success ee res) ∈ m) : (vs.lookup id).isSome := by
  unfold combine_attestation_results mapMergeEntries at h
  rcases hrec : mapMergeGo (vs.length + es.length) vs es with e | entries <;>
    rw [hrec] at h <;> simp only [Except.ok.injEq, reduceCtorEq] at h
  subst h
  obtain ⟨pv, hpv⟩ := mapMergeGo_success_mem_aux (vs.length + es.length) vs es
    entries hrec id ee res (mem_of_mem_collectToMap hm)
  obtain ⟨c, hc⟩ := lookup_eq_some_of_mem hpv
  simp [hc]

theorem build_binding_verifiers_mem
    {pvs : List (String × PeerAttestationVerifier)}
    {results : List (String × VerifierResult)}
    {entries : List (String × SessionBindingVerifier)}
    (h : build_binding_verifiers pvs results = .ok entries) :
    ∀ id bv, (id, bv) ∈ entries →
      ∃ ee res, (id, VerifierResult.success ee res) ∈ results := by
  induction results generalizing entries with
  | nil =>
    unfold build_binding_verifiers at h
    simp only [Except.ok.injEq] at h
    subst h
    intro id bv hmem
    simp at hmem
  | cons hd rest ih =>
    obtain ⟨id0, vr0⟩ := hd
    intro id bv hmem
    cases vr0 with
    | success ev res =>
      unfold build_binding_verifiers at h
      rcases hl : pvs.lookup id0 with _ | pv <;> rw [hl] at h <;>
        simp only [reduceCtorEq] at h
      rcases hp : pv.binding_verifier_provider res with e | bv0 <;> rw [hp] at h <;>
        simp only [reduceCtorEq] at h
      rcases hr : build_binding_verifiers pvs rest with e | r <;> rw [hr] at h <;>
        simp only [Except.ok.injEq, reduceCtorEq] at h
      subst h
      rcases List.mem_cons.mp hmem with hm | hm
      · have : id = id0 := congrArg Prod.fst hm
        subst this
        exact ⟨ev, res, by simp⟩
      · obtain ⟨ee, res2, hmem2⟩ := ih hr id bv hm
        exact ⟨ee, res2, by simp [hmem2]⟩
    | failure ev res =>
      unfold build_binding_verifiers at h
      obtain ⟨ee, res2, hmem2⟩ := ih h id bv hmem
      exact ⟨ee, res2, by simp [hmem2]⟩
    | missing =>
      unfold build_binding_verifiers at h
      obtain ⟨ee, res2, hmem2⟩ := ih h id bv hmem
      exact ⟨ee, res2, by simp [hmem2]⟩
    | unverified ev =>
      unfold build_binding_verifiers at h
      obtain ⟨ee, res2, hmem2⟩ := ih h id bv hmem
      exact ⟨ee, res2, by simp [hmem2]⟩

theorem build_binding_verifiers_no_panic
    {pvs : List (String × PeerAttestationVerifier)}
    {results : List (String × VerifierResult)}
    (hcover : ∀ id ee res, (id, VerifierResult.success ee res) ∈ results →
      (pvs.lookup id).isSome) :
    ∀ s, build_binding_verifiers pvs results ≠ .error (.panic s) := by
  induction results with
  | nil =>
    intro s
    unfold build_binding_verifiers
    simp
  | cons hd rest ih =>
    obtain ⟨id0, vr0⟩ := hd
    intro s
    have ihrest := ih (fun id ee res hm => hcover id ee res (by simp [hm]))
    cases vr0 with
    | success ev res =>
      have hsome := hcover id0 ev res (by simp)
      rcases hl : pvs.lookup id0 with _ | pv
      · rw [hl] at hsome; simp at hsome
      · unfold build_binding_verifiers
        rcases hp : pv.binding_verifier_provider res with e | bv0
        · simp [hl, hp]
        · rcases hr : build_binding_verifiers pvs rest with e | r
          · simp only [hl, hp, hr]
            intro hcon
            have he : e = HandlerError.panic s := by injection hcon
            exact ihrest s (by rw [hr, he])
          · simp [hl, hp, hr]
    | failure ev res =>
      unfold build_binding_verifiers
      exact ihrest s
    | missing =>
      unfold build_binding_verifiers
      exact ihrest s
    | unverified ev =>
      unfold build_binding_verifiers
      exact ihrest s

theorem build_binding_verifiers_all_ok
    {pvs : List (String × PeerAttestationVerifier)}
    {results : List (String × VerifierResult)}
    (h : ∀ id ee res, (id, VerifierResult.success ee res) ∈ results →
      ∃ pv, pvs.lookup id = some pv ∧ (pv.binding_verifier_provider res).isOk) :
    ∃ out, build_binding_verifiers pvs results = .ok out := by
  induction results with
  | nil => exact ⟨[], rfl⟩
  | cons hd rest ih =>
    obtain ⟨id0, vr0⟩ := hd
    have ihrest := ih (fun id ee res hm => h id ee res (by simp [hm]))
    cases vr0 with
    | success ev res =>
      obtain ⟨pv, hl, hok⟩ := h id0 ev res (by simp)
      rcases hp : pv.binding_verifier_provider res with e | bv0
      · rw [hp] at hok; simp [Except.isOk, Except.toBool] at hok
      · obtain ⟨r, hr⟩ := ihrest
        refine ⟨(id0, bv0) :: r, ?_⟩
        unfold build_binding_verifiers
        simp only [hl, hp, hr]
    | failure ev res =>
      obtain ⟨r, hr⟩ := ihrest
      exact ⟨r, by unfold build_binding_verifiers; exact hr⟩
    | missing =>
      obtain ⟨r, hr⟩ := ihrest
      exact ⟨r, by unfold build_binding_verifiers; exact hr⟩
    | unverified ev =>
      obtain ⟨r, hr⟩ := ihrest
      exact ⟨r, by unfold build_binding_verifiers; exact hr⟩

/-! ## Sortedness and permutation properties of map collection -/

theorem insertKey_sorted {l : List (String × α)} {e : String × α}
    (h : SortedKeys l) : SortedKeys (insertKey l e) := by
  induction l with
  | nil => simp [insertKey, SortedKeys]
  | cons hd tl ih =>
    obtain ⟨k, v⟩ := hd
    unfold insertKey
    rcases hcmp : string_cmp e.1 k with _ | _ | _
    · refine List.pairwise_cons.mpr ⟨?_, h⟩
      intro p hp
      rcases List.mem_cons.mp hp with hp1 | hp1
      · rw [congrArg Prod.fst hp1]
        exact lt_of_string_cmp_lt hcmp
      · exact lt_trans (lt_of_string_cmp_lt hcmp) (sorted_head_lt h hp1)
    · refine List.pairwise_cons.mpr ⟨?_, sortedKeys_tail h⟩
      intro p hp
      rw [eq_of_string_cmp_eq hcmp]
      exact sorted_head_lt h hp
    · refine List.pairwise_cons.mpr ⟨?_, ih (sortedKeys_tail h)⟩
      intro p hp
      rcases mem_of_mem_insertKey hp with hp1 | hp1
      · exact sorted_head_lt h hp1
      · rw [hp1]
        exact gt_of_string_cmp_gt hcmp

theorem collectToMap_sortedKeys (l : List (String × α)) :
    SortedKeys (collectToMap l) := by
  suffices haux : ∀ (li acc : List (String × α)), SortedKeys acc →
      SortedKeys (li.foldl insertKey acc) by
    exact haux l [] (by simp [SortedKeys])
  intro li
  induction li with
  | nil => intro acc hacc; simpa using hacc
  | cons hd tl ih =>
    intro acc hacc
    simp only [List.foldl_cons]
    exact ih _ (insertKey_sorted hacc)

theorem insertKey_perm {l : List (String × α)} {e : String × α}
    (h : e.1 ∉ keysOf l) : (insertKey l e).Perm (e :: l) := by
  induction l with
  | nil => simp [insertKey]
  | cons hd tl ih =>
    obtain ⟨k, v⟩ := hd
    rw [keysOf_cons, List.mem_cons] at h
    push_neg at h
    unfold insertKey
    rcases hcmp : string_cmp e.1 k with _ | _ | _
    · exact List.Perm.refl _
    · exact absurd (eq_of_string_cmp_eq hcmp) h.1
    · exact List.Perm.trans (List.Perm.cons _ (ih h.2)) (List.Perm.swap _ _ _)

theorem keysOf_cons_fst {l : List (String × α)} {p : String × α} :
    keysOf (p :: l) = p.1 :: keysOf l := rfl

theorem foldl_insertKey_perm :
    ∀ (l acc : List (String × α)), (keysOf acc ++ keysOf l).Nodup →
      (l.foldl insertKey acc).Perm (acc ++ l) := by
  intro l
  induction l with
  | nil => intro acc _; simp
  | cons hd tl ih =>
    intro acc hnd
    simp only [List.foldl_cons]
    rw [keysOf_cons_fst] at hnd
    have hmemacc : hd.1 ∉ keysOf acc := by
      intro hcon
      exact (List.disjoint_of_nodup_append hnd) hcon (by simp)
    have hperm1 : (insertKey acc hd).Perm (hd :: acc) := insertKey_perm hmemacc
    have hk1 : (keysOf (insertKey acc hd)).Perm (hd.1 :: keysOf acc) := by
      simpa [keysOf] using List.Perm.map Prod.fst hperm1
    have hkperm : (keysOf (insertKey acc hd) ++ keysOf tl).Perm
        (keysOf acc ++ hd.1 :: keysOf tl) := by
      refine List.Perm.trans (List.Perm.append_right (keysOf tl) hk1) ?_
      simpa using List.perm_middle.symm
    have hnd2 : (keysOf (insertKey acc hd) ++ keysOf tl).Nodup :=
      (List.Perm.nodup_iff hkperm).mpr hnd
    refine List.Perm.trans (ih _ hnd2) ?_
    refine List.Perm.trans (List.Perm.append_right _ hperm1) ?_
    exact List.perm_middle.symm

theorem collectToMap_perm {l : List (String × α)} (h : (keysOf l).Nodup) :
    (collectToMap l).Perm l := by
  unfold collectToMap
  simpa using foldl_insertKey_perm l [] (by simpa [keysOf] using h)

/-! ## Claim theorems -/

/-- C1: for every configured verifier map and received endorsed-evidence map,
`combine_attestation_results` returns a per-ID result map whose key set equals
the union of the two key sets; an ID in both maps with evidence and
endorsements both present maps to `Success` or `Failure` according to the
verifier's returned status; an ID in both maps with evidence or endorsements
absent maps to `Failure` with reason "Both evidence and endorsements need to
be provided"; a verifier-only ID maps to `Missing`; an evidence-only ID maps
to `Unverified`. -/
theorem C1_combine_attestation_results_merge_join
    (verifiers : List (String × PeerAttestationVerifier))
    (attested_evidence : List (String × EndorsedEvidence))
    (m : List (String × VerifierResult))
    (hvs : SortedKeys verifiers) (hes : SortedKeys attested_evidence)
    (h : combine_attestation_results verifiers attested_evidence = .ok m) :
    (∀ id, id ∈ keysOf m ↔ id ∈ keysOf verifiers ∨ id ∈ keysOf attested_evidence)
    ∧ (∀ id pv ee evd ends result,
        verifiers.lookup id = some pv → attested_evidence.lookup id = some ee →
        ee.evidence = some evd → ee.endorsements = some ends →
        pv.verifier evd ends = .ok result →
        m.lookup id = some (if result.status = Status.success
          then VerifierResult.success ee result
          else VerifierResult.failure ee result))
    ∧ (∀ id pv ee,
        verifiers.lookup id = some pv → attested_evidence.lookup id = some ee →
        (ee.evidence = none ∨ ee.endorsements = none) →
        m.lookup id = some (VerifierResult.failure ee
          { status := Status.genericFailure,
            reason := "Both evidence and endorsements need to be provided" }))
    ∧ (∀ id pv, verifiers.lookup id = some pv →
        attested_evidence.lookup id = none →
        m.lookup id = some VerifierResult.missing)
    ∧ (∀ id ee, verifiers.lookup id = none →
        attested_evidence.lookup id = some ee →
        m.lookup id = some (VerifierResult.unverified ee)) := by
  obtain ⟨K, S, M, U, B⟩ := combine_attestation_results_spec hvs hes h
  refine ⟨K, ?_, ?_, M, U⟩
  · intro id pv ee evd ends result hv he hevd hends hres
    obtain ⟨vr, hb, hl⟩ := B id pv ee hv he
    rcases ee with ⟨eev, een⟩
    simp only at hevd hends
    subst hevd
    subst hends
    simp only [handleBoth, hres, Except.ok.injEq, Prod.mk.injEq, true_and] at hb
    rw [hl, hb]
  · intro id pv ee hv he hmiss
    obtain ⟨vr, hb, hl⟩ := B id pv ee hv he
    rcases ee with ⟨eev, een⟩
    rcases hmiss with hm | hm <;> simp only at hm <;> subst hm
    · simp only [handleBoth, Except.ok.injEq, Prod.mk.injEq, true_and] at hb
      rw [hl, hb]
    · rcases eev with _ | evd
      · simp only [handleBoth, Except.ok.injEq, Prod.mk.injEq, true_and] at hb
        rw [hl, hb]
      · simp only [handleBoth, Except.ok.injEq, Prod.mk.injEq, true_and] at hb
        rw [hl, hb]

def c1VerOk : PeerAttestationVerifier :=
  { verifier := fun _ _ => .ok { status := Status.success, reason := "" },
    binding_verifier_provider := fun _ => .ok { tag := 1 } }

def c1EEFull : EndorsedEvidence :=
  { evidence := some { data := [1] }, endorsements := some { data := [2] } }

def c1EENoEnd : EndorsedEvidence :=
  { evidence := some { data := [1] }, endorsements := none }

def c1M : List (String × VerifierResult) :=
  [("a", VerifierResult.success c1EEFull { status := Status.success, reason := "" }),
   ("b", VerifierResult.failure c1EENoEnd
      { status := Status.genericFailure,
        reason := "Both evidence and endorsements need to be provided" }),
   ("c", VerifierResult.missing),
   ("d", VerifierResult.unverified c1EEFull)]

/-- Witness for C1 at a concrete four-ID configuration exercising all four
merge-join outcomes. -/
theorem C1_combine_attestation_results_merge_join_witness :
    combine_attestation_results
      [("a", c1VerOk), ("b", c1VerOk), ("c", c1VerOk)]
      [("a", c1EEFull), ("b", c1EENoEnd), ("d", c1EEFull)] = .ok c1M
    ∧ List.lookup "a" c1M =
        some (VerifierResult.success c1EEFull { status := Status.success, reason := "" })
    ∧ List.lookup "c" c1M = some VerifierResult.missing
    ∧ List.lookup "d" c1M = some (VerifierResult.unverified c1EEFull) := by
  have hmain := C1_combine_attestation_results_merge_join
    [("a", c1VerOk), ("b", c1VerOk), ("c", c1VerOk)]
    [("a", c1EEFull), ("b", c1EENoEnd), ("d", c1EEFull)] c1M
    (by decide) (by decide) rfl
  refine ⟨rfl, ?_, ?_, ?_⟩
  · have := hmain.2.1 "a" c1VerOk c1EEFull { data := [1] } { data := [2] }
      { status := Status.success, reason := "" } rfl rfl rfl rfl rfl
    simpa using this
  · exact hmain.2.2.2.1 "c" c1VerOk rfl rfl
  · exact hmain.2.2.2.2 "d" c1EEFull rfl rfl

/-- C2: whenever `take_attestation_state` succeeds (for either handler), every
ID in the returned `peer_session_binding_verifiers` map has a `Success`
verifier result in the verdict's result map. -/
theorem C2_binding_verifier_keys_are_success
    : (∀ (h : ClientAttestationHandler) (st : AttestationState),
        h.take_attestation_state = .ok st →
        ∀ id bv, (id, bv) ∈ st.peer_session_binding_verifiers →
          ∃ ee res, (id, VerifierResult.success ee res) ∈
            st.peer_attestation_verdict.get_attestation_results)
    ∧ (∀ (h : ServerAttestationHandler) (st : AttestationState),
        h.take_attestation_state = .ok st →
        ∀ id bv, (id, bv) ∈ st.peer_session_binding_verifiers →
          ∃ ee res, (id, VerifierResult.success ee res) ∈
            st.peer_attestation_verdict.get_attestation_results) := by
  constructor
  · intro h st hst id bv hmem
    unfold ClientAttestationHandler.take_attestation_state at hst
    rcases hres : h.attestation_result with _ | verdict <;> rw [hres] at hst <;>
      simp only [reduceCtorEq] at hst
    rcases hb : build_binding_verifiers h.config.peer_verifiers
        verdict.get_attestation_results with e | entries <;> rw [hb] at hst <;>
      simp only [Except.ok.injEq, reduceCtorEq] at hst
    subst hst
    simp only at hmem ⊢
    exact build_binding_verifiers_mem hb id bv (mem_of_mem_collectToMap hmem)
  · intro h st hst id bv hmem
    unfold ServerAttestationHandler.take_attestation_state at hst
    rcases hres : h.attestation_result with _ | verdict <;> rw [hres] at hst <;>
      simp only [reduceCtorEq] at hst
    rcases hb : build_binding_verifiers h.config.peer_verifiers
        verdict.get_attestation_results with e | entries <;> rw [hb] at hst <;>
      simp only [Except.ok.injEq, reduceCtorEq] at hst
    subst hst
    simp only at hmem ⊢
    exact build_binding_verifiers_mem hb id bv (mem_of_mem_collectToMap hmem)

def c2Verifier : PeerAttestationVerifier :=
  { verifier := fun _ _ => .ok { status := Status.success, reason := "" },
    binding_verifier_provider := fun _ => .ok { tag := 7 } }

def c2EE : EndorsedEvidence :=
  { evidence := some { data := [1] }, endorsements := some { data := [2] } }

def c2Cfg : AttestationHandlerConfig :=
  { self_attesters := [], self_endorsers := [], self_assertion_generators := [],
    peer_verifiers := [("a", c2Verifier)],
    attestation_results_aggregator := PeerAttestationVerdict.attestationPassed }

def c2Handler : ClientAttestationHandler :=
  { config := c2Cfg, attest_request := none,
    attestation_result := some (PeerAttestationVerdict.attestationPassed
      [("a", VerifierResult.success c2EE { status := Status.success, reason := "" })]),
    bindable_assertions := [], attestation_binding_token := [] }

/-- Witness for C2 at a concrete finalized client handler with one
successfully verified ID. -/
theorem C2_binding_verifier_keys_are_success_witness :
    ∃ st, c2Handler.take_attestation_state = .ok st ∧
      (("a", ({ tag := 7 } : SessionBindingVerifier)) ∈
        st.peer_session_binding_verifiers) ∧
      ∃ ee res, ("a", VerifierResult.success ee res) ∈
        st.peer_attestation_verdict.get_attestation_results := by
  refine ⟨_, rfl, by decide, ?_⟩
  exact C2_binding_verifier_keys_are_success.1 c2Handler _ rfl "a" { tag := 7 }
    (by decide)

/-- C10: the `.expect("no peer verifier for already succesfully verified
evidence: it cannot happen")` inside `take_attestation_state` never panics
when the stored verdict's result map came from `combine_attestation_results`
over `config.peer_verifiers`: every `Success` entry originates from the
merge-join's `Both` arm, so its ID is a key of the verifier map. -/
theorem C10_take_attestation_state_expect_never_panics
    : (∀ (h : ClientAttestationHandler) (verdict : PeerAttestationVerdict)
        (results : List (String × VerifierResult))
        (ev : List (String × EndorsedEvidence)),
        h.attestation_result = some verdict →
        verdict.get_attestation_results = results →
        combine_attestation_results h.config.peer_verifiers ev = .ok results →
        ∀ s, h.take_attestation_state ≠ .error (.panic s))
    ∧ (∀ (h : ServerAttestationHandler) (verdict : PeerAttestationVerdict)
        (results : List (String × VerifierResult))
        (ev : List (String × EndorsedEvidence)),
        h.attestation_result = some verdict →
        verdict.get_attestation_results = results →
        combine_attestation_results h.config.peer_verifiers ev = .ok results →
        ∀ s, h.take_attestation_state ≠ .error (.panic s)) := by
  constructor
  · intro h verdict results ev hres hget hcomb s hcon
    unfold ClientAttestationHandler.take_attestation_state at hcon
    rw [hres] at hcon
    simp only [reduceCtorEq] at hcon
    have hcover : ∀ id ee res,
        (id, VerifierResult.success ee res) ∈ verdict.get_attestation_results →
        (h.config.peer_verifiers.lookup id).isSome := by
      intro id ee res hm
      rw [hget] at hm
      exact combine_success_lookup hcomb hm
    rcases hb : build_binding_verifiers h.config.peer_verifiers
        verdict.get_attestation_results with e | entries <;> rw [hb] at hcon <;>
      simp only [Except.error.injEq, reduceCtorEq] at hcon
    exact build_binding_verifiers_no_panic hcover s (by rw [hb, hcon])
  · intro h verdict results ev hres hget hcomb s hcon
    unfold ServerAttestationHandler.take_attestation_state at hcon
    rw [hres] at hcon
    simp only [reduceCtorEq] at hcon
    have hcover : ∀ id ee res,
        (id, VerifierResult.success ee res) ∈ verdict.get_attestation_results →
        (h.config.peer_verifiers.lookup id).isSome := by
      intro id ee res hm
      rw [hget] at hm
      exact combine_success_lookup hcomb hm
    rcases hb : build_binding_verifiers h.config.peer_verifiers
        verdict.get_attestation_results with e | entries <;> rw [hb] at hcon <;>
      simp only [Except.error.injEq, reduceCtorEq] at hcon
    exact build_binding_verifiers_no_panic hcover s (by rw [hb, hcon])

def c10Results : List (String × VerifierResult) :=
  [("a", VerifierResult.success c2EE { status := Status.success, reason := "" })]

def c10Handler : ClientAttestationHandler :=
  { config := c2Cfg, attest_request := none,
    attestation_result := some (PeerAttestationVerdict.attestationPassed c10Results),
    bindable_assertions := [], attestation_binding_token := [] }

/-- Witness for C10 at a concrete handler whose verdict is the combined result
map of its own config over one received evidence entry. -/
theorem C10_take_attestation_state_expect_never_panics_witness :
    combine_attestation_results c2Cfg.peer_verifiers [("a", c2EE)] = .ok c10Results
    ∧ c10Handler.take_attestation_state ≠ .error (.panic
        "no peer verifier for already succesfully verified evidence: it cannot happen") := by
  refine ⟨rfl, ?_⟩
  exact C10_take_attestation_state_expect_never_panics.1 c10Handler _ c10Results
    [("a", c2EE)] rfl rfl rfl _

theorem sortedKeys_eq_of_perm {l1 l2 : List (String × α)} (hp : l1.Perm l2)
    (h1 : SortedKeys l1) (h2 : SortedKeys l2) : l1 = l2 := by
  haveI : IsAntisymm (String × α) (fun p q => p.1 < q.1) :=
    ⟨fun a b hab hba => absurd (lt_trans hab hba) (lt_irrefl _)⟩
  exact List.eq_of_perm_of_sorted hp h1 h2

/-- C3: `serialize_assertions` is a deterministic function of the map
contents: it emits, per entry in ascending ID order, the length-delimited
encoding of the ID, `b':'`, the content and `b'|'`; two maps holding the same
(ID, content) pairs — whether given as equal-content sorted maps or built by
inserting the same pairs in any order — serialize to byte-identical outputs,
and the empty map serializes to the empty byte string. -/
theorem C3_serialize_assertions_deterministic :
    (∀ l : List (String × Assertion),
      serialize_assertions l =
        (l.map (fun p =>
          (encode_string_to_vec p.1 ++ [58]) ++ p.2.content ++ [124])).flatten)
    ∧ (∀ l1 l2 : List (String × Assertion), SortedKeys l1 → SortedKeys l2 →
        l1.Perm l2 → serialize_assertions l1 = serialize_assertions l2)
    ∧ (∀ l1 l2 : List (String × Assertion), (keysOf l1).Nodup → l1.Perm l2 →
        serialize_assertions (collectToMap l1) =
          serialize_assertions (collectToMap l2))
    ∧ serialize_assertions [] = [] := by
  refine ⟨fun l => rfl, ?_, ?_, rfl⟩
  · intro l1 l2 h1 h2 hp
    rw [sortedKeys_eq_of_perm hp h1 h2]
  · intro l1 l2 hnd hp
    have hkp : (keysOf l1).Perm (keysOf l2) := hp.map Prod.fst
    have hnd2 : (keysOf l2).Nodup := hkp.nodup hnd
    have e1 := collectToMap_perm hnd
    have e2 := collectToMap_perm hnd2
    have hperm : (collectToMap l1).Perm (collectToMap l2) :=
      e1.trans (hp.trans e2.symm)
    exact congrArg serialize_assertions (sortedKeys_eq_of_perm hperm
      (collectToMap_sortedKeys l1) (collectToMap_sortedKeys l2))

/-- Witness for C3 at the spec's own example: `{("α", "x"), ("β", "y")}`
against `{("β", "y"), ("α", "x")}`, plus the concrete byte output. -/
theorem C3_serialize_assertions_deterministic_witness :
    serialize_assertions
        (collectToMap [(("β" : String), Assertion.mk [121]), ("α", Assertion.mk [120])]) =
      serialize_assertions
        (collectToMap [(("α" : String), Assertion.mk [120]), ("β", Assertion.mk [121])])
    ∧ serialize_assertions
        (collectToMap [(("α" : String), Assertion.mk [120]), ("β", Assertion.mk [121])]) =
      [10, 2, 206, 177, 58, 120, 124, 10, 2, 206, 178, 58, 121, 124] := by
  refine ⟨?_, rfl⟩
  exact C3_serialize_assertions_deterministic.2.2.1
    [("β", Assertion.mk [121]), ("α", Assertion.mk [120])]
    [("α", Assertion.mk [120]), ("β", Assertion.mk [121])]
    (by decide) (by decide)

/-- C4: TDX quote chain validation removes the final certificate of the
wire-provided PCK chain and substitutes the hard-coded trusted Intel PCK root
before any signature checking, then checks each remaining certificate against
its successor; hence replacing the wire-provided root by an arbitrary forged
certificate changes nothing, and any chain that verifies still verifies after
the replacement. -/
theorem C4_forged_wire_root_is_ignored (C : CryptoOps) (chain : List Certificate)
    (forged : Certificate) (hne : chain ≠ []) :
    (verify_quote_cert_chain_and_extract_leaf C
        (QeCertificationData.pckCertChain (chain.dropLast ++ [forged])) =
      verify_quote_cert_chain_and_extract_leaf C
        (QeCertificationData.pckCertChain chain))
    ∧ ((verify_quote_cert_chain_and_extract_leaf C
          (QeCertificationData.pckCertChain chain)).isOk = true →
        (verify_quote_cert_chain_and_extract_leaf C
          (QeCertificationData.pckCertChain (chain.dropLast ++ [forged]))).isOk = true) := by
  have h1 : (chain.dropLast ++ [forged]).isEmpty = false := by
    cases hcl : chain.dropLast ++ [forged] with
    | nil => exact absurd hcl (by simp)
    | cons a l => rfl
  have h2 : chain.isEmpty = false := by
    cases chain with
    | nil => exact absurd rfl hne
    | cons a l => rfl
  have hmain : verify_quote_cert_chain_and_extract_leaf C
      (QeCertificationData.pckCertChain (chain.dropLast ++ [forged])) =
      verify_quote_cert_chain_and_extract_leaf C
      (QeCertificationData.pckCertChain chain) := by
    unfold verify_quote_cert_chain_and_extract_leaf
    simp only [h1, h2, Bool.false_eq_true, if_false, List.dropLast_concat]
  exact ⟨hmain, fun hok => hmain ▸ hok⟩

def c4Crypto : CryptoOps :=
  { parse_sec1_key := fun b => some b,
    parse_signature_der := fun b => some b,
    parse_signature_bytes := fun b => some b,
    from_untagged_bytes := fun b => some b,
    p256_verify := fun _ _ _ => true,
    hash_sha2_256 := fun _ => List.replicate 32 0 }

def c4Leaf : Certificate :=
  { signature_algorithm := ECDSA_WITH_SHA_256, tbs_certificate_der := [1],
    signature := [2], subject_public_key := [3] }

def c4WireRoot : Certificate :=
  { signature_algorithm := ECDSA_WITH_SHA_256, tbs_certificate_der := [4],
    signature := [5], subject_public_key := [6] }

def c4Forged : Certificate :=
  { signature_algorithm := 99, tbs_certificate_der := [7],
    signature := [8], subject_public_key := [9] }

/-- Witness for C4 at a concrete two-certificate chain whose wire root is
replaced by a forged certificate: the verification outcome is unchanged and
still succeeds. -/
theorem C4_forged_wire_root_is_ignored_witness :
    (verify_quote_cert_chain_and_extract_leaf c4Crypto
        (QeCertificationData.pckCertChain
          ([c4Leaf, c4WireRoot].dropLast ++ [c4Forged])) =
      verify_quote_cert_chain_and_extract_leaf c4Crypto
        (QeCertificationData.pckCertChain [c4Leaf, c4WireRoot]))
    ∧ verify_quote_cert_chain_and_extract_leaf c4Crypto
        (QeCertificationData.pckCertChain [c4Leaf, c4WireRoot]) = .ok c4Leaf := by
  refine ⟨?_, rfl⟩
  exact (C4_forged_wire_root_is_ignored c4Crypto [c4Leaf, c4WireRoot] c4Forged
    (by decide)).1

/-- C6: for every certificate pair, a signee whose signature-algorithm OID is
not ECDSA-with-SHA-256 makes `verify_ecdsa_cert_signature` return an error
whose message contains "unsupported signature algorithm", and the chain
validation loop stops at that certificate with that error, never examining any
later certificate (the result is the same for every continuation `rest`). -/
theorem C6_unsupported_signature_algorithm_halts
    (C : CryptoOps) (signer signee : Certificate) (rest : List Certificate)
    (halg : signee.signature_algorithm ≠ ECDSA_WITH_SHA_256) :
    (verify_ecdsa_cert_signature C signer signee =
      .error ("unsupported signature algorithm: " ++
        toString signee.signature_algorithm))
    ∧ (∃ pre post,
        pre ++ ("unsupported signature algorithm").data ++ post =
          ("unsupported signature algorithm: " ++
            toString signee.signature_algorithm).data)
    ∧ (verify_chain_pairs C signee (signer :: rest) =
      .error ("verifying cert signature" ++ ": " ++
        ("unsupported signature algorithm: " ++
          toString signee.signature_algorithm))) := by
  have h1 : verify_ecdsa_cert_signature C signer signee =
      .error ("unsupported signature algorithm: " ++
        toString signee.signature_algorithm) := by
    unfold verify_ecdsa_cert_signature
    simp only [halg, if_false]
  refine ⟨h1, ⟨[], (": " ++ toString signee.signature_algorithm).data, ?_⟩, ?_⟩
  · simp [String.data_append]
  · unfold verify_chain_pairs
    rw [h1]
    simp [context_err]

def c6BadCert : Certificate :=
  { signature_algorithm := 0, tbs_certificate_der := [1],
    signature := [2], subject_public_key := [3] }

/-- Witness for C6 at a concrete RSA-style (non-ECDSA) certificate. -/
theorem C6_unsupported_signature_algorithm_halts_witness :
    verify_chain_pairs c4Crypto c6BadCert [c4Leaf, c4WireRoot] =
      .error ("verifying cert signature" ++ ": " ++
        ("unsupported signature algorithm: " ++ toString (0 : Nat))) := by
  have := C6_unsupported_signature_algorithm_halts c4Crypto c4Leaf c6BadCert
    [c4WireRoot] (by decide)
  exact this.2.2

/-- C5: `verify_intel_tdx_quote_validity` succeeds only if
SHA-256(ecdsa_attestation_key ‖ authentication_data) equals the first 32 bytes
of the parsed QE report's `report_data` and the remaining 32 bytes are all
zero; when the preceding steps succeed and one of those checks fails, the
function returns the error "attestation key is not bound to quoting enclave
report" resp. "unexpected data in quoting enclave report data". -/
theorem C5_qe_report_key_binding (C : CryptoOps) (quote : TdxQuoteWrapper) :
    (verify_intel_tdx_quote_validity C quote = .ok () →
      ∃ sd cd qe_sig rb ad rep,
        quote.parse_signature_data = .ok sd ∧
        sd.certification_data =
          QeCertificationData.qeReportCertificationData cd qe_sig rb ad (.ok rep) ∧
        C.hash_sha2_256 (sd.ecdsa_attestation_key ++ ad) = rep.report_data.take 32 ∧
        List.replicate 32 0 = rep.report_data.drop 32)
    ∧ (∀ sd cd qe_sig rb ad rep pck_leaf key s,
        quote.parse_signature_data = .ok sd →
        sd.certification_data =
          QeCertificationData.qeReportCertificationData cd qe_sig rb ad (.ok rep) →
        verify_quote_cert_chain_and_extract_leaf C cd = .ok pck_leaf →
        extract_ecdsa_verifying_key C pck_leaf = .ok key →
        C.parse_signature_bytes qe_sig = some s →
        C.p256_verify key rb s = true →
        ((C.hash_sha2_256 (sd.ecdsa_attestation_key ++ ad) ≠ rep.report_data.take 32 →
          verify_intel_tdx_quote_validity C quote =
            .error "attestation key is not bound to quoting enclave report")
        ∧ (C.hash_sha2_256 (sd.ecdsa_attestation_key ++ ad) = rep.report_data.take 32 →
           List.replicate 32 0 ≠ rep.report_data.drop 32 →
          verify_intel_tdx_quote_validity C quote =
            .error "unexpected data in quoting enclave report data"))) := by
  constructor
  · intro h
    unfold verify_intel_tdx_quote_validity at h
    rcases hsd : quote.parse_signature_data with e | sd <;>
      simp only [hsd, context_err, reduceCtorEq] at h
    rcases hcd : sd.certification_data with chain | ⟨cd, qe_sig, rb, ad, pr⟩ | _ <;>
      simp only [hcd, reduceCtorEq] at h
    rcases hleaf : verify_quote_cert_chain_and_extract_leaf C cd with e | pck_leaf <;>
      simp only [hleaf, context_err, reduceCtorEq] at h
    rcases hkey : extract_ecdsa_verifying_key C pck_leaf with e | key <;>
      simp only [hkey, reduceCtorEq] at h
    rcases hqs : C.parse_signature_bytes qe_sig with _ | s <;>
      simp only [hqs, reduceCtorEq] at h
    cases hv1 : C.p256_verify key rb s with
    | false => rw [hv1] at h; simp at h
    | true =>
      rw [hv1, if_pos rfl] at h
      rcases pr with e | rep <;> simp only [context_err, reduceCtorEq] at h
      by_cases hhash :
          C.hash_sha2_256 (sd.ecdsa_attestation_key ++ ad) = rep.report_data.take 32
      · rw [if_pos hhash] at h
        by_cases hzero : List.replicate 32 0 = rep.report_data.drop 32
        · exact ⟨sd, cd, qe_sig, rb, ad, rep, rfl, hcd, hhash, hzero⟩
        · rw [if_neg hzero] at h; simp at h
      · rw [if_neg hhash] at h; simp at h
  · intro sd cd qe_sig rb ad rep pck_leaf key s hsd hcd hleaf hkey hqs hv1
    constructor
    · intro hneq
      unfold verify_intel_tdx_quote_validity
      simp only [hsd, context_err, hcd, hleaf, hkey, hqs, hv1]
      rw [if_pos trivial, if_neg hneq]
    · intro hhash hzero
      unfold verify_intel_tdx_quote_validity
      simp only [hsd, context_err, hcd, hleaf, hkey, hqs, hv1]
      rw [if_pos trivial, if_pos hhash, if_neg hzero]

def c5Crypto : CryptoOps :=
  { parse_sec1_key := fun b => some b,
    parse_signature_der := fun b => some b,
    parse_signature_bytes := fun b => some b,
    from_untagged_bytes := fun b => some b,
    p256_verify := fun _ _ _ => true,
    hash_sha2_256 := fun _ => List.replicate 32 1 }

def c5Leaf : Certificate :=
  { signature_algorithm := ECDSA_WITH_SHA_256, tbs_certificate_der := [1],
    signature := [2], subject_public_key := [3] }

def c5Report : EnclaveReportBody := { report_data := List.replicate 64 0 }

def c5SD : SignatureData :=
  { certification_data := QeCertificationData.qeReportCertificationData
      (QeCertificationData.pckCertChain [c5Leaf, c5Leaf]) [1] [2] [3] (.ok c5Report),
    ecdsa_attestation_key := [4],
    quote_signature := [5] }

def c5Quote : TdxQuoteWrapper :=
  { parse_signature_data := .ok c5SD, get_quote_data_bytes := .ok [6] }

/-- Witness for C5 at a concrete quote whose earlier steps all succeed but
whose hashed key binding does not match the QE report data. -/
theorem C5_qe_report_key_binding_witness :
    verify_intel_tdx_quote_validity c5Crypto c5Quote =
      .error "attestation key is not bound to quoting enclave report" := by
  have hb := (C5_qe_report_key_binding c5Crypto c5Quote).2 c5SD
    (QeCertificationData.pckCertChain [c5Leaf, c5Leaf]) [1] [2] [3] c5Report
    c5Leaf [3] [1] rfl rfl rfl rfl rfl rfl
  exact hb.1 (by decide)

/-- C7: for both handlers, `put_incoming_message` appends the serialization of
the incoming assertions to the binding token unconditionally; with a verdict
already stored it returns `Ok(None)` and leaves the verdict unchanged;
otherwise it merge-joins the verifiers with the received evidence, feeds the
per-ID map to the configured aggregator, stores the verdict and returns
`Ok(Some(()))`. -/
theorem C7_put_incoming_message_contract :
    (∀ (h : ClientAttestationHandler) (msg : AttestResponse),
      ((h.put_incoming_message msg).1.attestation_binding_token =
        h.attestation_binding_token ++ serialize_assertions msg.assertions)
      ∧ (∀ v, h.attestation_result = some v →
          (h.put_incoming_message msg).2 = .ok none
          ∧ (h.put_incoming_message msg).1.attestation_result = some v)
      ∧ (h.attestation_result = none →
          ∀ results, combine_attestation_results h.config.peer_verifiers
              msg.endorsed_evidence = .ok results →
            (h.put_incoming_message msg).2 = .ok (some ())
            ∧ (h.put_incoming_message msg).1.attestation_result =
                some (h.config.attestation_results_aggregator results)))
    ∧ (∀ (h : ServerAttestationHandler) (msg : AttestRequest),
      ((h.put_incoming_message msg).1.attestation_binding_token =
        h.attestation_binding_token ++ serialize_assertions msg.assertions)
      ∧ (∀ v, h.attestation_result = some v →
          (h.put_incoming_message msg).2 = .ok none
          ∧ (h.put_incoming_message msg).1.attestation_result = some v)
      ∧ (h.attestation_result = none →
          ∀ results, combine_attestation_results h.config.peer_verifiers
              msg.endorsed_evidence = .ok results →
            (h.put_incoming_message msg).2 = .ok (some ())
            ∧ (h.put_incoming_message msg).1.attestation_result =
                some (h.config.attestation_results_aggregator results))) := by
  constructor
  · intro h msg
    refine ⟨?_, ?_, ?_⟩
    · rcases hres : h.attestation_result with _ | v
      · rcases hcomb : combine_attestation_results h.config.peer_verifiers
            msg.endorsed_evidence with e | results <;>
          simp [ClientAttestationHandler.put_incoming_message, hres, hcomb]
      · simp [ClientAttestationHandler.put_incoming_message, hres]
    · intro v hres
      simp [ClientAttestationHandler.put_incoming_message, hres]
    · intro hres results hcomb
      simp [ClientAttestationHandler.put_incoming_message, hres, hcomb]
  · intro h msg
    refine ⟨?_, ?_, ?_⟩
    · rcases hres : h.attestation_result with _ | v
      · rcases hcomb : combine_attestation_results h.config.peer_verifiers
            msg.endorsed_evidence with e | results <;>
          simp [ServerAttestationHandler.put_incoming_message, hres, hcomb]
      · simp [ServerAttestationHandler.put_incoming_message, hres]
    · intro v hres
      simp [ServerAttestationHandler.put_incoming_message, hres]
    · intro hres results hcomb
      simp [ServerAttestationHandler.put_incoming_message, hres, hcomb]

def c7Verifier : PeerAttestationVerifier :=
  { verifier := fun _ _ => .ok { status := Status.success, reason := "" },
    binding_verifier_provider := fun _ => .ok { tag := 3 } }

def c7EE : EndorsedEvidence :=
  { evidence := some { data := [1] }, endorsements := some { data := [2] } }

def c7Cfg : AttestationHandlerConfig :=
  { self_attesters := [], self_endorsers := [], self_assertion_generators := [],
    peer_verifiers := [("a", c7Verifier)],
    attestation_results_aggregator := PeerAttestationVerdict.attestationPassed }

def c7Handler : ClientAttestationHandler :=
  { config := c7Cfg, attest_request := none, attestation_result := none,
    bindable_assertions := [], attestation_binding_token := [9] }

def c7Msg : AttestResponse :=
  { endorsed_evidence := [("a", c7EE)],
    assertions := [("b", { content := [122] })] }

/-- Witness for C7 at a concrete client handler ingesting one message. -/
theorem C7_put_incoming_message_contract_witness :
    ((c7Handler.put_incoming_message c7Msg).1.attestation_binding_token =
      [9] ++ serialize_assertions c7Msg.assertions)
    ∧ (c7Handler.put_incoming_message c7Msg).2 = .ok (some ())
    ∧ (c7Handler.put_incoming_message c7Msg).1.attestation_result =
        some (c7Cfg.attestation_results_aggregator
          [("a", VerifierResult.success c7EE { status := Status.success, reason := "" })]) := by
  have hm := C7_put_incoming_message_contract.1 c7Handler c7Msg
  have hrest := hm.2.2 rfl
    [("a", VerifierResult.success c7EE { status := Status.success, reason := "" })] rfl
  exact ⟨hm.1, hrest.1, hrest.2⟩

def c8Cfg : AttestationHandlerConfig :=
  { self_attesters := [], self_endorsers := [],
    self_assertion_generators :=
      [("a", { generate := .ok { assertion := { content := [120] },
                                 binding_capability := [] } })],
    peer_verifiers := [],
    attestation_results_aggregator := PeerAttestationVerdict.attestationPassed }

def c8H0 : ClientAttestationHandler :=
  { config := c8Cfg,
    attest_request := some { endorsed_evidence := [],
                             assertions := [("a", { content := [120] })] },
    attestation_result := none,
    bindable_assertions :=
      [("a", { assertion := { content := [120] }, binding_capability := [] })],
    attestation_binding_token := [] }

/-- Counterexample to C8 as stated: a call to `get_outgoing_message` that
returns `None` still extends the binding token (the extension at
attestation.rs:327/481 happens before the `take` and is unconditional), so on
a handler reached from `create` with a non-empty assertion map, the second
call returns `None` yet changes the binding token. -/
theorem C8_counterexample_none_call_extends_token :
    ClientAttestationHandler.create c8Cfg = .ok c8H0
    ∧ (c8H0.get_outgoing_message.1.get_outgoing_message.2 = none)
    ∧ c8H0.get_outgoing_message.1.get_outgoing_message.1.attestation_binding_token ≠
        c8H0.get_outgoing_message.1.attestation_binding_token :=
  ⟨rfl, rfl, by decide⟩

/-- C8 (amended): for both handlers, `get_outgoing_message` returns the
pre-built message on the first call and `None` on every subsequent call (and
`put_incoming_message` never restores it), and it appends
`serialize(self_assertions)` to the binding token on every call — including
the calls that return `None`. -/
theorem C8_get_outgoing_message_amended :
    (∀ (cfg : AttestationHandlerConfig) (h : ClientAttestationHandler),
      ClientAttestationHandler.create cfg = .ok h → h.attest_request.isSome = true)
    ∧ (∀ h : ClientAttestationHandler,
        h.get_outgoing_message.2 = h.attest_request
        ∧ h.get_outgoing_message.1.attest_request = none
        ∧ h.get_outgoing_message.1.attestation_binding_token =
            h.attestation_binding_token ++
              serialize_assertions (assertions_of h.bindable_assertions)
        ∧ ∀ msg, (h.put_incoming_message msg).1.attest_request = h.attest_request)
    ∧ (∀ (cfg : AttestationHandlerConfig) (h : ServerAttestationHandler),
      ServerAttestationHandler.create cfg = .ok h → h.attest_response.isSome = true)
    ∧ (∀ h : ServerAttestationHandler,
        h.get_outgoing_message.2 = h.attest_response
        ∧ h.get_outgoing_message.1.attest_response = none
        ∧ h.get_outgoing_message.1.attestation_binding_token =
            h.attestation_binding_token ++
              serialize_assertions (assertions_of h.bindable_assertions)
        ∧ ∀ msg, (h.put_incoming_message msg).1.attest_response = h.attest_response) := by
  refine ⟨?_, ?_, ?_, ?_⟩
  · intro cfg h hc
    unfold ClientAttestationHandler.create at hc
    rcases hba : bindable_assertions_of cfg with e | ba <;> rw [hba] at hc <;>
      simp only [reduceCtorEq] at hc
    rcases hee : endorsed_evidence_of cfg with e | ee <;> rw [hee] at hc <;>
      simp only [Except.ok.injEq, reduceCtorEq] at hc
    rw [← hc]
    rfl
  · intro h
    refine ⟨rfl, rfl, rfl, ?_⟩
    intro msg
    rcases hres : h.attestation_result with _ | v
    · rcases hcomb : combine_attestation_results h.config.peer_verifiers
          msg.endorsed_evidence with e | results <;>
        simp [ClientAttestationHandler.put_incoming_message, hres, hcomb]
    · simp [ClientAttestationHandler.put_incoming_message, hres]
  · intro cfg h hc
    unfold ServerAttestationHandler.create at hc
    rcases hba : bindable_assertions_of cfg with e | ba <;> rw [hba] at hc <;>
      simp only [reduceCtorEq] at hc
    rcases hee : endorsed_evidence_of cfg with e | ee <;> rw [hee] at hc <;>
      simp only [Except.ok.injEq, reduceCtorEq] at hc
    rw [← hc]
    rfl
  · intro h
    refine ⟨rfl, rfl, rfl, ?_⟩
    intro msg
    rcases hres : h.attestation_result with _ | v
    · rcases hcomb : combine_attestation_results h.config.peer_verifiers
          msg.endorsed_evidence with e | results <;>
        simp [ServerAttestationHandler.put_incoming_message, hres, hcomb]
    · simp [ServerAttestationHandler.put_incoming_message, hres]

/-- Witness for the amended C8 at the concrete created handler `c8H0`. -/
theorem C8_get_outgoing_message_amended_witness :
    c8H0.attest_request.isSome = true
    ∧ c8H0.get_outgoing_message.2 = c8H0.attest_request
    ∧ c8H0.get_outgoing_message.1.attest_request = none
    ∧ c8H0.get_outgoing_message.1.attestation_binding_token =
        [] ++ serialize_assertions (assertions_of c8H0.bindable_assertions) := by
  have h1 := C8_get_outgoing_message_amended.1 c8Cfg c8H0 rfl
  have h2 := C8_get_outgoing_message_amended.2.1 c8H0
  exact ⟨h1, h2.1, h2.2.1, h2.2.2.1⟩

/-- C9: for both handlers, calling `take_attestation_state` before any verdict
has been computed fails with the error "attestation is not complete"; once a
verdict exists the call does not fail for that reason — whenever every
`Success` entry has a configured verifier whose binding-verifier provider
succeeds, the call succeeds outright. -/
theorem C9_take_attestation_state_requires_verdict :
    (∀ h : ClientAttestationHandler,
      (h.attestation_result = none →
        h.take_attestation_state = .error (.msg "attestation is not complete"))
      ∧ (∀ v, h.attestation_result = some v →
          (∀ id ee res,
            (id, VerifierResult.success ee res) ∈ v.get_attestation_results →
            ∃ pv, h.config.peer_verifiers.lookup id = some pv ∧
              (pv.binding_verifier_provider res).isOk) →
          (h.take_attestation_state).isOk = true))
    ∧ (∀ h : ServerAttestationHandler,
      (h.attestation_result = none →
        h.take_attestation_state = .error (.msg "attestation is not complete"))
      ∧ (∀ v, h.attestation_result = some v →
          (∀ id ee res,
            (id, VerifierResult.success ee res) ∈ v.get_attestation_results →
            ∃ pv, h.config.peer_verifiers.lookup id = some pv ∧
              (pv.binding_verifier_provider res).isOk) →
          (h.take_attestation_state).isOk = true)) := by
  constructor
  · intro h
    constructor
    · intro hres
      unfold ClientAttestationHandler.take_attestation_state
      rw [hres]
    · intro v hres hprov
      unfold ClientAttestationHandler.take_attestation_state
      rw [hres]
      obtain ⟨out, hout⟩ := build_binding_verifiers_all_ok hprov
      simp [hout, Except.isOk, Except.toBool]
  · intro h
    constructor
    · intro hres
      unfold ServerAttestationHandler.take_attestation_state
      rw [hres]
    · intro v hres hprov
      unfold ServerAttestationHandler.take_attestation_state
      rw [hres]
      obtain ⟨out, hout⟩ := build_binding_verifiers_all_ok hprov
      simp [hout, Except.isOk, Except.toBool]

def c9Verifier : PeerAttestationVerifier :=
  { verifier := fun _ _ => .ok { status := Status.success, reason := "" },
    binding_verifier_provider := fun _ => .ok { tag := 5 } }

def c9EE : EndorsedEvidence :=
  { evidence := some { data := [1] }, endorsements := some { data := [2] } }

def c9Cfg : AttestationHandlerConfig :=
  { self_attesters := [], self_endorsers := [], self_assertion_generators := [],
    peer_verifiers := [("a", c9Verifier)],
    attestation_results_aggregator := PeerAttestationVerdict.attestationPassed }

def c9Fresh : ClientAttestationHandler :=
  { config := c9Cfg, attest_request := none, attestation_result := none,
    bindable_assertions := [], attestation_binding_token := [] }

def c9Done : ClientAttestationHandler :=
  { c9Fresh with attestation_result := some (PeerAttestationVerdict.attestationPassed
      [("a", VerifierResult.success c9EE { status := Status.success, reason := "" })]) }

/-- Witness for C9: the fresh handler fails with "attestation is not
complete"; the handler with a verdict succeeds. -/
theorem C9_take_attestation_state_requires_verdict_witness :
    c9Fresh.take_attestation_state = .error (.msg "attestation is not complete")
    ∧ (c9Done.take_attestation_state).isOk = true := by
  refine ⟨(C9_take_attestation_state_requires_verdict.1 c9Fresh).1 rfl, ?_⟩
  refine (C9_take_attestation_state_requires_verdict.1 c9Done).2 _ rfl ?_
  intro id ee res hm
  simp only [PeerAttestationVerdict.get_attestation_results, c9Done, c9Fresh,
    List.mem_singleton] at hm
  have hid : id = "a" := congrArg Prod.fst hm
  subst hid
  refine ⟨c9Verifier, rfl, ?_⟩
  have h2 := congrArg Prod.snd hm
  simp only [VerifierResult.success.injEq] at h2
  rw [h2.2]
  rfl
